import Mathlib

/-!
Verification development for the `b_lepton_met` event-analysis pipeline.

The source files embedded here are:
* `src/wprime_plus_b/corrections/lepton.py` (`ElectronCorrector`, `MuonCorrector`),
* `src/wprime_plus_b/processors/ztoll_processor.py` (`ZToLLProcessor.process`).

Conventions of the embedding:
* per-event (or per-object) arrays become Lean `List`s; float-valued branches become `ℚ`
  (the clamping bounds and thresholds of the source are exact decimal constants, so `ℚ`
  represents them exactly); awkward-array elementwise operations become `List.zipWith`
  (numpy/awkward broadcasting always acts on arrays of equal length in the source);
* fallible code (Python ``assert``, ``KeyError``, ``NameError``, duplicate registration)
  returns `Except String _`;
* the external scale-factor service (spec §6) is an opaque function argument; every call
  that the corrector code makes to it is recorded as a `LookupCall` so that theorems can
  speak about which lookups were performed and with which (clamped) kinematic inputs;
* components of the repository that are not under `src/` (the coffea `Weights` /
  `PackedSelection` classes, `corrections/utils.py`, `corrections/met.py`, the object
  selection predicates, …) are modelled from the spec; each such definition carries a
  doc comment starting with `Modelled from the spec:`.
-/

namespace BLeptonMet

/-! ### Elementary array utilities -/

/-- Decidable equality for error-carrying results (used by concrete witnesses). -/
instance {ε α : Type} [DecidableEq ε] [DecidableEq α] : DecidableEq (Except ε α) :=
  fun a b =>
    match a, b with
    | .ok x, .ok y => if h : x = y then .isTrue (by rw [h]) else .isFalse (by simp [h])
    | .error x, .error y => if h : x = y then .isTrue (by rw [h]) else .isFalse (by simp [h])
    | .ok _, .error _ => .isFalse (by simp)
    | .error _, .ok _ => .isFalse (by simp)

/-- `np.clip(x, lo, hi)`: values below `lo` become `lo`, values above `hi` become `hi`. -/
def clip (x lo hi : ℚ) : ℚ := min (max x lo) hi

/-- Elementwise AND of two boolean per-event arrays (`numpy &`). -/
def andMask (a b : List Bool) : List Bool := List.zipWith and a b

/-- `ak.sum(w[m])`: the sum of the weights of the events selected by the mask `m`. -/
def weightedSum (w : List ℚ) (m : List Bool) : ℚ :=
  (List.zipWith (fun x b => if b then x else 0) w m).sum

/-- `xs[mask]`: keep the entries of `xs` whose mask entry is `true`. -/
def maskFilter {α : Type} (xs : List α) (m : List Bool) : List α :=
  ((xs.zip m).filter (fun p => p.2)).map (fun p => p.1)

/-- Per-event application of `maskFilter` to a ragged collection (`coll[object_mask]`). -/
def maskFilter2 {α : Type} (xs : List (List α)) (m : List (List Bool)) : List (List α) :=
  List.zipWith maskFilter xs m

/-- Python dict update `{**d, k: v}`: replace the value at `k` in place if `k` is
present (a Python dict keeps the original key position), otherwise append `(k, v)`. -/
def dictInsert {α : Type} (d : List (String × α)) (k : String) (v : α) : List (String × α) :=
  match d with
  | [] => [(k, v)]
  | (k', v') :: rest => if k' = k then (k', v) :: rest else (k', v') :: dictInsert rest k v

/-! ### Weight Ledger

Modelled from the spec (§4.5): the coffea `Weights` container used by the source is not
repository code; its contract is given by the spec: `add` registers a named nominal factor
with an optional paired up/down variant, failing on a duplicate name, on a length mismatch
with the batch size, or when only one of up/down is supplied; `weight()` is the elementwise
product of all nominal factors. -/

/-- A named multiplicative weight factor with optional paired up/down variants. -/
structure WeightFactor where
  name : String
  nominal : List ℚ
  variants : Option (List ℚ × List ℚ)
deriving DecidableEq, Repr

/-- Modelled from the spec: the Weight Ledger (coffea `Weights`) state. -/
structure Weights where
  nevents : ℕ
  factors : List WeightFactor
deriving DecidableEq, Repr

/-- Modelled from the spec: `Weights.add(name, weight, weightUp, weightDown)`. -/
def Weights.add (w : Weights) (name : String) (wnom : List ℚ)
    (wUp wDown : Option (List ℚ)) : Except String Weights :=
  if w.factors.any (fun f => f.name == name) then
    .error ("DuplicateWeightError: " ++ name)
  else if wnom.length ≠ w.nevents then
    .error ("ShapeError: " ++ name)
  else
    match wUp, wDown with
    | some u, some d =>
        if u.length = w.nevents ∧ d.length = w.nevents then
          .ok ⟨w.nevents, w.factors ++ [⟨name, wnom, some (u, d)⟩]⟩
        else .error ("ShapeError: " ++ name)
    | none, none => .ok ⟨w.nevents, w.factors ++ [⟨name, wnom, none⟩]⟩
    | _, _ => .error "ConfigurationError: up and down variations must be supplied together"

/-- Modelled from the spec: `Weights.weight()`, the elementwise product of all
registered nominal factors (all ones when no factor is registered). -/
def Weights.weight (w : Weights) : List ℚ :=
  w.factors.foldl (fun acc f => List.zipWith (fun a b => a * b) acc f.nominal)
    (List.replicate w.nevents 1)

/-- Modelled from the spec: per-factor audit statistics (sum, sum of squares, count),
the `weightStatistics` mapping copied into the chunk metadata by the processor. -/
def weightStatistics (w : Weights) : List (String × (ℚ × ℚ × ℕ)) :=
  w.factors.map (fun f =>
    (f.name, (f.nominal.sum, (f.nominal.map (fun x => x * x)).sum, f.nominal.length)))

/-! ### Selection Registry

Modelled from the spec (§4.4): the coffea `PackedSelection` used by the source is not
repository code; per the spec, `add` registers a named per-event mask and fails on a
duplicate name, and `all(*names)` is the elementwise AND of the named masks, failing on
an unknown name.  (The spec also requires a shape check on `add`; mask lengths in the
source are maintained by the array library, and this embedding instead lets elementwise
operations truncate, as `List.zipWith` does.) -/

/-- Modelled from the spec: the Selection Registry (coffea `PackedSelection`) state. -/
structure PackedSelection where
  nevents : ℕ
  masks : List (String × List Bool)
deriving DecidableEq, Repr

/-- The mask registered under `name`, if any. -/
def PackedSelection.get (s : PackedSelection) (name : String) : Option (List Bool) :=
  List.lookup name s.masks

/-- Modelled from the spec: `PackedSelection.add(name, mask)`; a duplicate name is an error. -/
def PackedSelection.add (s : PackedSelection) (name : String) (m : List Bool) :
    Except String PackedSelection :=
  match s.get name with
  | some _ => .error ("DuplicateSelectionError: " ++ name)
  | none => .ok ⟨s.nevents, s.masks ++ [(name, m)]⟩

/-- AND the masks named by `l` onto the accumulator `m`, failing on an unknown name. -/
def allOfAux (s : PackedSelection) : List Bool → List String → Except String (List Bool)
  | m, [] => .ok m
  | m, nm :: rest =>
      match s.get nm with
      | some g => allOfAux s (andMask m g) rest
      | none => .error ("UnknownSelectionError: " ++ nm)

/-- Modelled from the spec: `PackedSelection.all(*names)`, the elementwise AND of the
named registered masks. -/
def PackedSelection.allOf (s : PackedSelection) (names : List String) :
    Except String (List Bool) :=
  allOfAux s (List.replicate s.nevents true) names

/-! ### Lepton correctors (`src/wprime_plus_b/corrections/lepton.py`)

The external scale-factor service (spec §6, `correctionlib` in the source) is passed in as
an opaque vectorized function `sfService : LookupCall → List ℚ`.  Every `cset[key].evaluate`
call the corrector performs is recorded as a `LookupCall`, carrying the correction-set key,
the requested systematic variant, the working point (electron only; the muon working point
is baked into the key), and the flat per-object kinematic inputs exactly as the source
passes them (i.e. after its clamping).  The run-period tag argument of `evaluate` is a
constant string per corrector instance and is not recorded. -/

/-- One `cset[key].evaluate(...)` call made by a corrector. -/
structure LookupCall where
  key : String
  variant : String
  working_point : String
  etas : List ℚ
  pts : List ℚ
deriving DecidableEq, Repr

/-- Modelled from the spec: `unflat_sf` (in `corrections/utils.py`, which is not under
`src/`) turns the flat per-object scale-factor array returned by the service back into a
per-event multiplicative weight (spec §4.2: each corrector "produces a per-event
multiplicative weight"); modelled as the product of the scale factors of the objects of
each event, `1` for an event with no objects. -/
def unflat_sf (flat : List ℚ) (counts : List ℕ) : List ℚ :=
  match counts with
  | [] => []
  | n :: rest => (flat.take n).foldl (fun a b => a * b) 1 :: unflat_sf (flat.drop n) rest

/-- The state of an `ElectronCorrector`: the systematic-variation flag and the flattened
electron kinematics (`self.electrons_pt`, `self.electrons_eta`, counts `self.n`). -/
structure ElectronCorrector where
  variation : String
  pts : List ℚ
  etas : List ℚ
  counts : List ℕ
deriving DecidableEq, Repr

/-- The lookup made by `ElectronCorrector.add_id_weight`: eta is passed unclamped, pt is
`np.clip(pt, 10.0, 499.999)`. -/
def mkElectronIdCall (c : ElectronCorrector) (idwp variant : String) : LookupCall :=
  { key := "UL-Electron-ID-SF", variant := variant, working_point := idwp,
    etas := c.etas, pts := c.pts.map (fun x => clip x 10 499.999) }

/-- `ElectronCorrector.add_id_weight(id_working_point)` (lepton.py:73-116).  Returns the
list of scale-factor lookups performed (in order) and the updated ledger (or the error). -/
def ElectronCorrector.add_id_weight (sfS : LookupCall → List ℚ) (c : ElectronCorrector)
    (w : Weights) (id_working_point : String) : List LookupCall × Except String Weights :=
  let callSf := mkElectronIdCall c id_working_point "sf"
  let nominal_sf := unflat_sf (sfS callSf) c.counts
  if c.variation = "nominal" then
    let callUp := mkElectronIdCall c id_working_point "sfup"
    let callDown := mkElectronIdCall c id_working_point "sfdown"
    let up_sf := unflat_sf (sfS callUp) c.counts
    let down_sf := unflat_sf (sfS callDown) c.counts
    ([callSf, callUp, callDown],
      w.add "electron_id" nominal_sf (some up_sf) (some down_sf))
  else
    ([callSf], w.add "electron_id" nominal_sf none none)

/-- The state of a `MuonCorrector`: variation flag, ID and isolation working points, the
flattened muon kinematics, and the dataset year (used to pick the trigger SF key). -/
structure MuonCorrector where
  variation : String
  id_wp : String
  iso_wp : String
  pts : List ℚ
  etas : List ℚ
  counts : List ℕ
  year : String
deriving DecidableEq, Repr

/-- The `sfs_keys` dict of `add_triggeriso_weight` (lepton.py:252-256). -/
def muonTriggerKeys : List (String × String) :=
  [("2016", "NUM_IsoMu24_or_IsoTkMu24_DEN_CutBasedIdTight_and_PFIsoTight"),
   ("2017", "NUM_IsoMu27_DEN_CutBasedIdTight_and_PFIsoTight"),
   ("2018", "NUM_IsoMu24_DEN_CutBasedIdTight_and_PFIsoTight")]

/-- A muon `cset[key].evaluate(pog_year, eta, pt, variant)` call (no working-point
argument: the working point is part of the key). -/
def mkMuonCall (key variant : String) (etas pts : List ℚ) : LookupCall :=
  { key := key, variant := variant, working_point := "", etas := etas, pts := pts }

/-- The message of the Python `assert` at lepton.py:243 (an `AssertionError` in the
source; the spec error taxonomy (§7) classifies it as a `ConfigurationError`:
an incompatible ID/iso combination for a requested scale factor). -/
def triggerAssertMsg : String :=
  "ConfigurationError: muon trigger SF only available for tight ID and Iso"

/-- `MuonCorrector.add_triggeriso_weight()` (lepton.py:242-280).  The `assert` on the
working points is the first statement: on failure no lookup is performed and the ledger is
left untouched (the error return carries no updated ledger).  Otherwise |eta| is clamped
to [0, 2.399] and pt to [29, 199.999] before the lookups. -/
def MuonCorrector.add_triggeriso_weight (sfS : LookupCall → List ℚ) (c : MuonCorrector)
    (w : Weights) : List LookupCall × Except String Weights :=
  if c.id_wp = "tight" ∧ c.iso_wp = "tight" then
    let muon_eta := c.etas.map (fun x => clip |x| 0 2.399)
    let muon_pt := c.pts.map (fun x => clip x 29 199.999)
    match List.lookup c.year muonTriggerKeys with
    | none => ([], .error ("KeyError: " ++ c.year))
    | some key =>
      let callSf := mkMuonCall key "sf" muon_eta muon_pt
      let nominal_sf := unflat_sf (sfS callSf) c.counts
      if c.variation = "nominal" then
        let callUp := mkMuonCall key "systup" muon_eta muon_pt
        let callDown := mkMuonCall key "systdown" muon_eta muon_pt
        ([callSf, callUp, callDown],
          w.add "muon_triggeriso" nominal_sf
            (some (unflat_sf (sfS callUp) c.counts))
            (some (unflat_sf (sfS callDown) c.counts)))
      else
        ([callSf], w.add "muon_triggeriso" nominal_sf none none)
  else ([], .error triggerAssertMsg)

/-- The `id_corrections` dict of `MuonCorrector.add_weight` (lepton.py:301-305). -/
def muonIdKeys : List (String × String) :=
  [("loose", "NUM_LooseID_DEN_TrackerMuons"),
   ("medium", "NUM_MediumID_DEN_TrackerMuons"),
   ("tight", "NUM_TightID_DEN_TrackerMuons")]

/-- The `iso_correction` local of `MuonCorrector.add_weight` (lepton.py:306-317): in the
source it is assigned only inside the `iso_wp == "loose"` / `iso_wp == "tight"` branches,
for the listed `id_wp` values; in every other case the Python local is never assigned,
modelled here as `none`. -/
def muonIsoCorrection (iso_wp id_wp : String) : Option String :=
  if iso_wp = "loose" then
    if id_wp = "loose" then some "NUM_LooseRelIso_DEN_LooseID"
    else if id_wp = "medium" then some "NUM_LooseRelIso_DEN_MediumID"
    else if id_wp = "tight" then some "NUM_LooseRelIso_DEN_TightIDandIPCut"
    else none
  else if iso_wp = "tight" then
    if id_wp = "medium" then some "NUM_TightRelIso_DEN_MediumID"
    else if id_wp = "tight" then some "NUM_TightRelIso_DEN_TightIDandIPCut"
    else none
  else none

/-- `MuonCorrector.add_weight(sf_type)` (lepton.py:282-346).  Mirrors the source order:
the `assert` (iso "tight" forbids id "loose"), the clamps (|eta| to [0, 2.399], pt to
[15, 119.999]), then the `sfs_keys` dict construction — Python evaluates
`id_corrections[self.id_wp]` first (`KeyError` on an unknown id working point) and the
`iso_correction` local second (`NameError` when it was never assigned) — and only then
the lookups and the ledger registration. -/
def MuonCorrector.add_weight (sfS : LookupCall → List ℚ) (c : MuonCorrector)
    (w : Weights) (sf_type : String) : List LookupCall × Except String Weights :=
  if c.iso_wp = "tight" ∧ c.id_wp = "loose" then
    ([], .error "ConfigurationError: no available SFs")
  else
    let muon_eta := c.etas.map (fun x => clip |x| 0 2.399)
    let muon_pt := c.pts.map (fun x => clip x 15 119.999)
    match List.lookup c.id_wp muonIdKeys with
    | none => ([], .error ("KeyError: " ++ c.id_wp))
    | some idKey =>
      match muonIsoCorrection c.iso_wp c.id_wp with
      | none => ([], .error "NameError: local variable iso_correction referenced before assignment")
      | some isoKey =>
        match List.lookup sf_type [("id", idKey), ("iso", isoKey)] with
        | none => ([], .error ("KeyError: " ++ sf_type))
        | some key =>
          let callSf := mkMuonCall key "sf" muon_eta muon_pt
          let nominal_sf := unflat_sf (sfS callSf) c.counts
          if c.variation = "nominal" then
            let callUp := mkMuonCall key "systup" muon_eta muon_pt
            let callDown := mkMuonCall key "systdown" muon_eta muon_pt
            ([callSf, callUp, callDown],
              w.add ("muon_" ++ sf_type) nominal_sf
                (some (unflat_sf (sfS callUp) c.counts))
                (some (unflat_sf (sfS callDown) c.counts)))
          else
            ([callSf], w.add ("muon_" ++ sf_type) nominal_sf none none)

/-- `MuonCorrector.add_id_weight()` (lepton.py:230-234). -/
def MuonCorrector.add_id_weight (sfS : LookupCall → List ℚ) (c : MuonCorrector)
    (w : Weights) : List LookupCall × Except String Weights :=
  MuonCorrector.add_weight sfS c w "id"

/-- `MuonCorrector.add_iso_weight()` (lepton.py:236-240). -/
def MuonCorrector.add_iso_weight (sfS : LookupCall → List ℚ) (c : MuonCorrector)
    (w : Weights) : List LookupCall × Except String Weights :=
  MuonCorrector.add_weight sfS c w "iso"

/-! ### Event batch data model (`ztoll_processor.py`, spec §3)

Physics objects carry the scalar attributes the processor reads.  The 4-vector
arithmetic of the "variables" block (lines 210-238: `mass` of a summed 4-momentum,
`delta_phi`, `delta_r`, the `sqrt`/`cos` of the transverse mass) produces irrational
values and is abstracted as an opaque pure function `Externals.kinVars` of the selected
leptons and the corrected MET; every claim below is independent of those values. -/

/-- A lepton (electron or muon) with the attributes the processor reads. -/
structure Lepton where
  pt : ℚ
  eta : ℚ
  phi : ℚ
  mass : ℚ
  charge : ℤ
  pdgId : ℤ
deriving DecidableEq, Repr

/-- A jet with the kinematic branches the kinematic-correction step may rescale. -/
structure Jet where
  pt : ℚ
  eta : ℚ
  phi : ℚ
  mass : ℚ
deriving DecidableEq, Repr

/-- The per-event missing-transverse-energy branches. -/
structure Met where
  pt : List ℚ
  phi : List ℚ
deriving DecidableEq, Repr

/-- One chunk of raw events (spec §3 "Event Batch").  `genWeight` is present exactly for
simulated data (`self.is_mc = hasattr(events, "genWeight")`).  `hlt` and `flag` are the
per-chunk boolean trigger-bit and MET-filter-bit fields actually present in the input. -/
structure Chunk where
  nevents : ℕ
  genWeight : Option (List ℚ)
  run : List ℕ
  luminosityBlock : List ℕ
  npvsGood : List ℕ
  hlt : List (String × List Bool)
  flag : List (String × List Bool)
  electrons : List (List Lepton)
  muons : List (List Lepton)
  jets : List (List Jet)
  met : Met
deriving DecidableEq, Repr

/-- The derived kinematic per-event variables of lines 210-238. -/
structure KinVars where
  ptl1 : List ℚ
  ptl2 : List ℚ
  ptll : List ℚ
  mll : List ℚ
  dphill : List ℚ
  drll : List ℚ
  mth : List ℚ
deriving DecidableEq, Repr

/-- The external collaborators of the processor whose code is not under `src/`
(spec §1 "explicitly OUT of scope" and §6): the object-selection predicates
(`select_good_electrons`, `select_good_muons`, `select_good_bjets` combined with
`delta_r_mask`), the jet energy corrections, the MC part of the MET-phi correction, the
luminosity-mask service, the trigger / MET-filter configuration for the configured year,
the non-lepton MC weight registrations (pileup, L1-prefiring, pileup-jet-id, b-tagging,
and the lepton-corrector calls of lines 137-200), and the 4-vector variable computation.
All are opaque pure functions; theorems quantify over them. -/
structure Externals where
  select_good_electrons : Chunk → List (List Bool)
  select_good_muons : Chunk → List (List Bool)
  jet_corrections : Chunk → List (List Jet) × Met
  good_bjets : Chunk → List (List Jet) → List (List Lepton) → List (List Bool)
  met_corr : List ℚ → List ℚ → List ℕ → List ℚ × List ℚ
  lumi_mask : List ℕ → List ℕ → List Bool
  triggers : String → List String
  metfilters : String → List String
  addMCWeights : Chunk → Weights → Weights
  kinVars : List (List Lepton) → Met → KinVars

/-- The immutable processor configuration (`__init__` arguments). -/
structure Config where
  year : String
  lepton_flavor : String
deriving DecidableEq, Repr

/-- Modelled from the spec: `met_phi_corrections` (`corrections/met.py`, not under
`src/`).  Per the spec (§4.2), kinematic "corrections apply only to simulated data — real
detector data already carries corrected values and must pass through unchanged"; for MC
the correction itself is the opaque external `ext.met_corr`. -/
def met_phi_corrections (ext : Externals) (met_pt met_phi : List ℚ) (npvs : List ℕ)
    (is_mc : Bool) : List ℚ × List ℚ :=
  if is_mc then ext.met_corr met_pt met_phi npvs else (met_pt, met_phi)

/-- The kinematic-correction step (lines 100-127): JEC/JER-corrected jets and MET for MC,
the raw branches for data, then the MET-phi correction written back into `met.pt` /
`met.phi`. -/
def kinematicStep (ext : Externals) (c : Chunk) : List (List Jet) × Met :=
  let is_mc := c.genWeight.isSome
  let jm := if is_mc then ext.jet_corrections c else (c.jets, c.met)
  let pp := met_phi_corrections ext jm.2.pt jm.2.phi c.npvsGood is_mc
  (jm.1, ⟨pp.1, pp.2⟩)

/-- The good-lepton collection (lines 80-98): the flavor-selected objects filtered by the
external object-selection predicate.  (For a flavor other than "ele" the source reads the
local `muons`, which for an unrecognized flavor was never assigned; the caller
`processCore` guards the flavor before using this.) -/
def goodLeptons (cfg : Config) (ext : Externals) (c : Chunk) : List (List Lepton) :=
  if cfg.lepton_flavor = "ele" then
    maskFilter2 c.electrons (ext.select_good_electrons c)
  else
    maskFilter2 c.muons (ext.select_good_muons c)

/-- The per-channel trigger mask (lines 260-265): starting from all-false, OR in each
listed trigger bit that is present among the chunk HLT fields (`if t in
events.HLT.fields`). -/
def triggerMask (nevents : ℕ) (hlt : List (String × List Bool))
    (trigNames : List String) : List Bool :=
  trigNames.foldl (fun acc t =>
    match List.lookup t hlt with
    | some bits => List.zipWith or acc bits
    | none => acc) (List.replicate nevents false)

/-- The MET-filters mask (lines 269-277): starting from all-true, AND in each listed
filter bit that is present among the chunk Flag fields. -/
def metfiltersMask (nevents : ℕ) (flag : List (String × List Bool))
    (filterNames : List String) : List Bool :=
  filterNames.foldl (fun acc t =>
    match List.lookup t flag with
    | some bits => List.zipWith and acc bits
    | none => acc) (List.replicate nevents true)

/-- The charge-neutrality mask (lines 285-287): product of the charges of the two leading
leptons negative.  `ak.firsts` / `ak.pad_none(...)[:, 1]` give a missing value for events
with fewer than two leptons; such entries are modelled as `false` (they are only ever
ANDed after the `two_leptons` cut, which already removes those events). -/
def neutralMask (gl : List (List Lepton)) : List Bool :=
  gl.map (fun evs =>
    match evs with
    | a :: b :: _ => decide (a.charge * b.charge < 0)
    | _ => false)

/-- The `ee` / `mumu` / `emu` masks (lines 295-297): the product of the lepton pdg codes
of the event equals the given target (the product over an empty collection is 1). -/
def pdgProdMask (gl : List (List Lepton)) (target : ℤ) : List Bool :=
  gl.map (fun evs => decide ((evs.map (fun l => l.pdgId)).prod = target))

/-- The thirteen named masks, in the registration order of lines 244-297. -/
def selectionMasks (ext : Externals) (c : Chunk) (good_leptons : List (List Lepton))
    (bjets : List (List Jet)) (kv : KinVars) : List (String × List Bool) :=
  let is_mc := c.genWeight.isSome
  let nevents := c.nevents
  [("lumi", if is_mc then List.replicate nevents true
            else ext.lumi_mask c.run c.luminosityBlock),
   ("trigger_ele", triggerMask nevents c.hlt (ext.triggers "ele")),
   ("trigger_mu", triggerMask nevents c.hlt (ext.triggers "mu")),
   ("metfilters", metfiltersMask nevents c.flag
      (ext.metfilters (if is_mc then "mc" else "data"))),
   ("goodvertex", c.npvsGood.map (fun n => decide (0 < n))),
   ("two_leptons", good_leptons.map (fun evs => decide (evs.length = 2))),
   ("neutral", neutralMask good_leptons),
   ("mass_range", kv.mll.map (fun m => decide (60 < m) && decide (m < 120))),
   ("bjet_veto", bjets.map (fun evs => decide (evs.length = 0))),
   ("mthlt60", kv.mth.map (fun m => decide (m < 60))),
   ("ee", pdgProdMask good_leptons (-11 * 11)),
   ("mumu", pdgProdMask good_leptons (-13 * 13)),
   ("emu", pdgProdMask good_leptons (-11 * 13))]

/-- Register a list of named masks one by one with `PackedSelection.add`. -/
def mkSelections (nevents : ℕ) (l : List (String × List Bool)) :
    Except String PackedSelection :=
  l.foldlM (fun s p => s.add p.1 p.2) (⟨nevents, []⟩ : PackedSelection)

/-- The per-channel ordered region cut lists (lines 300-325). -/
def regions : List (String × List String) :=
  [("ele", ["goodvertex", "lumi", "trigger_ele", "metfilters", "bjet_veto",
            "two_leptons", "neutral", "mass_range", "mthlt60", "ee"]),
   ("mu", ["goodvertex", "lumi", "trigger_mu", "metfilters", "bjet_veto",
           "two_leptons", "neutral", "mass_range", "mthlt60", "mumu"])]

/-- `regions[flavor]` (line 330). -/
def regionNames (flavor : String) : List String := (List.lookup flavor regions).getD []

/-- The cutflow loop body (lines 332-338): `selections` grows by one cut name per
iteration, and each iteration records `ak.sum(weight[self.selections.all(*selections)])`
under the cut name. -/
def cutflowAux (sel : PackedSelection) (w : List ℚ) :
    List String → List String → Except String (List (String × ℚ))
  | _, [] => .ok []
  | acc, nm :: rest =>
      match sel.allOf (acc ++ [nm]) with
      | .error e => .error e
      | .ok cur =>
          match cutflowAux sel w (acc ++ [nm]) rest with
          | .error e => .error e
          | .ok tail => .ok ((nm, weightedSum w cur) :: tail)

/-- The cutflow record of a region (lines 330-338). -/
def cutflowLoop (sel : PackedSelection) (w : List ℚ) (cutNames : List String) :
    Except String (List (String × ℚ)) :=
  cutflowAux sel w [] cutNames

/-- The weight-ledger population (lines 132-201): `Weights(len(events))`, then for MC the
`genweight` factor followed by the external MC weight registrations; for data no factor
is registered. -/
def buildWeights (ext : Externals) (c : Chunk) : Except String Weights :=
  let w0 : Weights := ⟨c.nevents, []⟩
  match c.genWeight with
  | some gw =>
      match w0.add "genweight" gw none none with
      | .error e => .error e
      | .ok w1 => .ok (ext.addMCWeights c w1)
  | none => .ok w0

/-- Modelled from the spec: `normalize` (`processors/utils/analysis_utils.py`, not under
`src/`) replaces missing/masked entries by a fill value for safe downstream use
(spec §4.1); missing entries do not arise in this embedding (the region filter has
already removed the events that would carry them), so it is the identity. -/
def normalize (xs : List ℚ) : List ℚ := xs

/-- The nine feature arrays (already filtered by the region selection) that the region
block stores via `add_feature` (lines 352-380), in call order. -/
structure FeatureValues where
  ptl1 : List ℚ
  ptl2 : List ℚ
  ptll : List ℚ
  mll : List ℚ
  dphill : List ℚ
  drll : List ℚ
  mth : List ℚ
  nvtx : List ℚ
  weights : List ℚ
deriving DecidableEq, Repr

/-- The chunk metadata assembled into `output["metadata"]`. -/
structure Metadata where
  sumw : ℚ
  weight_statistics : List (String × (ℚ × ℚ × ℕ))
  cutflow : List (String × ℚ)
  events_before : ℕ
  events_after : ℕ
deriving DecidableEq, Repr

/-- One chunk output record: metadata plus the feature table (`output["arrays"]`). -/
structure Output where
  metadata : Metadata
  arrays : List (String × List ℚ)
deriving DecidableEq, Repr

/-- The state-independent part of `ZToLLProcessor.process`: everything except the
reads/writes of the instance dictionaries `self.features` / `self.array_dict` (which in
the source happen only in the region block at the very end).  Returns the metadata and,
when at least one event passes the full region selection, the nine filtered feature
arrays; `none` encodes the `continue` of line 350 (zero events after selection).
An unrecognized lepton flavor is the `NameError` the source raises at line 98. -/
def processCore (cfg : Config) (ext : Externals) (c : Chunk) :
    Except String (Metadata × Option FeatureValues) :=
  let nevents := c.nevents
  if cfg.lepton_flavor = "ele" ∨ cfg.lepton_flavor = "mu" then
    let good_leptons := goodLeptons cfg ext c
    let jm := kinematicStep ext c
    let bjets := maskFilter2 jm.1 (ext.good_bjets c jm.1 good_leptons)
    match buildWeights ext c with
    | .error e => .error e
    | .ok wc =>
      let wvec := wc.weight
      let kv := ext.kinVars good_leptons jm.2
      match mkSelections nevents (selectionMasks ext c good_leptons bjets kv) with
      | .error e => .error e
      | .ok sel =>
        let names := regionNames cfg.lepton_flavor
        match cutflowLoop sel wvec names with
        | .error e => .error e
        | .ok cf =>
          match sel.allOf names with
          | .error e => .error e
          | .ok region_selection =>
            let nevents_after := region_selection.count true
            let md : Metadata :=
              ⟨wvec.sum, weightStatistics wc, cf, nevents, nevents_after⟩
            if nevents_after = 0 then .ok (md, none)
            else
              .ok (md, some
                { ptl1 := maskFilter kv.ptl1 region_selection,
                  ptl2 := maskFilter kv.ptl2 region_selection,
                  ptll := maskFilter kv.ptll region_selection,
                  mll := maskFilter kv.mll region_selection,
                  dphill := maskFilter kv.dphill region_selection,
                  drll := maskFilter kv.drll region_selection,
                  mth := maskFilter kv.mth region_selection,
                  nvtx := maskFilter (c.npvsGood.map (fun n => (n : ℚ)))
                    region_selection,
                  weights := maskFilter wvec region_selection })
  else .error "NameError: local variable muons referenced before assignment"

/-- The mutable instance state of a `ZToLLProcessor`: `self.features` and
`self.array_dict`, both initialized to empty dicts in `__init__`. -/
structure ProcState where
  features : List (String × List ℚ)
  array_dict : List (String × List ℚ)
deriving DecidableEq, Repr

/-- The instance state right after `__init__`. -/
def initState : ProcState := ⟨[], []⟩

/-- The names passed to `add_feature` in the region block, in call order. -/
def featureNames : List String :=
  ["ptl1", "ptl2", "ptll", "mll", "dphill", "drll", "mth", "nvtx", "weights"]

/-- The nine `add_feature` calls of the region block (lines 352-380): nine successive
Python dict updates of `self.features`. -/
def addFeatures (d : List (String × List ℚ))
    (v1 v2 v3 v4 v5 v6 v7 v8 v9 : List ℚ) : List (String × List ℚ) :=
  dictInsert (dictInsert (dictInsert (dictInsert (dictInsert (dictInsert (dictInsert
    (dictInsert (dictInsert d "ptl1" v1) "ptl2" v2) "ptll" v3) "mll" v4) "dphill" v5)
    "drll" v6) "mth" v7) "nvtx" v8) "weights" v9

/-- `ZToLLProcessor.process` with the instance state threaded explicitly.  On an error
the chunk is aborted with the state unchanged (in the source every raise happens before
the region block, which is the only place `self.features` is written).  On the
zero-events path the output feature table is the per-chunk copy of `self.array_dict`;
otherwise the nine features are written into `self.features` and the feature table is
rebuilt from it (`normalize` applied per column). -/
def process (cfg : Config) (ext : Externals) (s : ProcState) (c : Chunk) :
    ProcState × Except String Output :=
  match processCore cfg ext c with
  | .error e => (s, .error e)
  | .ok (md, none) => (s, .ok ⟨md, s.array_dict⟩)
  | .ok (md, some fv) =>
      let newFeat := addFeatures s.features fv.ptl1 fv.ptl2 fv.ptll fv.mll fv.dphill
        fv.drll fv.mth fv.nvtx fv.weights
      (⟨newFeat, s.array_dict⟩,
       .ok ⟨md, newFeat.map (fun p => (p.1, normalize p.2))⟩)

/-- Run the processor instance over a sequence of chunks, threading its state. -/
def runChunks (cfg : Config) (ext : Externals) : ProcState → List Chunk → ProcState
  | s, [] => s
  | s, c :: cs => runChunks cfg ext (process cfg ext s c).1 cs

/-- The full-region event mask that `processCore` computes (named here so that claims
can hypothesize about "the events satisfying the full region selection").  It equals the
internal `region_selection` of `processCore` whenever the latter reaches that point. -/
def regionSelection (cfg : Config) (ext : Externals) (c : Chunk) : List Bool :=
  let good_leptons := goodLeptons cfg ext c
  let jm := kinematicStep ext c
  let bjets := maskFilter2 jm.1 (ext.good_bjets c jm.1 good_leptons)
  let kv := ext.kinVars good_leptons jm.2
  let sel : PackedSelection := ⟨c.nevents, selectionMasks ext c good_leptons bjets kv⟩
  ((sel.allOf (regionNames cfg.lepton_flavor)).toOption).getD []

/-- A chunk is well formed when its generator-weight branch (when present) has one entry
per event; this is the only length the embedded control flow checks explicitly (the
`Weights.add` shape check for the `genweight` factor). -/
def ChunkWF (c : Chunk) : Prop :=
  ∀ gw, c.genWeight = some gw → gw.length = c.nevents

/-! ### Spec-side definitions

These follow the wording of the spec (not the source) and are used to state refinement
claims against the source-derived definitions above. -/

/-- Spec words (§4.6/§3 "Cutflow Record"): the elementwise AND of the masks named by the
first `i+1` cuts of the region's ordered cut list. -/
def specPrefixMask (sel : PackedSelection) (names : List String) (i : ℕ) : List Bool :=
  ((names.take (i+1)).map (fun nm => (sel.get nm).getD [])).foldl andMask
    (List.replicate sel.nevents true)

/-- Spec words (§6): "core ORs all listed per-channel trigger bits". -/
def specOrAll (nevents : ℕ) (bits : List (List Bool)) : List Bool :=
  bits.foldl (fun acc b => List.zipWith or acc b) (List.replicate nevents false)

/-- Spec words (§6): "ANDs all listed filter bits". -/
def specAndAll (nevents : ℕ) (bits : List (List Bool)) : List Bool :=
  bits.foldl (fun acc b => List.zipWith and acc b) (List.replicate nevents true)

/-- Spec words (§3 "Cutflow Record" invariant): the weight-sum sequence is monotonically
non-increasing along the region's cut list. -/
def cutflowMonotone (cf : List (String × ℚ)) : Prop :=
  ∀ i, i + 1 < cf.length → (cf.getD (i+1) ("", 0)).2 ≤ (cf.getD i ("", 0)).2

/-! ### Selection-registry lemmas -/

/-- The AND-fold of registered masks (total form of `allOfAux`, defaulting an unknown
name to the empty mask; used only under a registered-names hypothesis). -/
def andFoldD (s : PackedSelection) (m : List Bool) (l : List String) : List Bool :=
  l.foldl (fun m nm => andMask m ((s.get nm).getD [])) m

lemma lookup_eq_none_of_not_mem {β : Type} (a : String) (l : List (String × β))
    (h : a ∉ l.map Prod.fst) : List.lookup a l = none := by
  induction l with
  | nil => rfl
  | cons p l ih =>
      simp only [List.map_cons, List.mem_cons, not_or] at h
      have hb : (a == p.1) = false := beq_eq_false_iff_ne.mpr h.1
      simp only [List.lookup, hb]
      exact ih h.2

lemma allOfAux_ok (s : PackedSelection) (l : List String) :
    ∀ m : List Bool, (∀ nm ∈ l, (s.get nm).isSome) →
      allOfAux s m l = .ok (andFoldD s m l) := by
  induction l with
  | nil => intro m _; rfl
  | cons nm rest ih =>
      intro m h
      obtain ⟨g, hg⟩ := Option.isSome_iff_exists.mp (h nm (List.mem_cons_self nm rest))
      simp only [allOfAux, hg, andFoldD, List.foldl_cons]
      rw [ih (andMask m g) (fun x hx => h x (List.mem_cons_of_mem _ hx))]
      simp [andFoldD, hg]

lemma allOf_ok (s : PackedSelection) (l : List String)
    (h : ∀ nm ∈ l, (s.get nm).isSome) :
    s.allOf l = .ok (andFoldD s (List.replicate s.nevents true) l) :=
  allOfAux_ok s l _ h

lemma allOfAux_append_singleton (s : PackedSelection) (nm : String) :
    ∀ (l : List String) (m : List Bool),
      allOfAux s m (l ++ [nm]) =
        match allOfAux s m l with
        | .ok m' =>
            match s.get nm with
            | some g => .ok (andMask m' g)
            | none => .error ("UnknownSelectionError: " ++ nm)
        | .error e => .error e := by
  intro l
  induction l with
  | nil =>
      intro m
      simp only [List.nil_append, allOfAux]
  | cons x l ih =>
      intro m
      simp only [List.cons_append, allOfAux]
      cases s.get x <;> simp [ih]

/-! ### Weighted-sum lemmas -/

lemma weightedSum_nonneg (w : List ℚ) (hw : ∀ x ∈ w, 0 ≤ x) :
    ∀ m : List Bool, 0 ≤ weightedSum w m := by
  induction w with
  | nil => intro m; simp [weightedSum]
  | cons x w ih =>
      intro m
      cases m with
      | nil => simp [weightedSum]
      | cons b m =>
          have h1 : 0 ≤ x := hw x (List.mem_cons_self x w)
          have h2 := ih (fun y hy => hw y (List.mem_cons_of_mem _ hy)) m
          simp only [weightedSum, List.zipWith_cons_cons, List.sum_cons] at h2 ⊢
          have h3 : (0:ℚ) ≤ if b then x else 0 := by split <;> simp [h1]
          linarith

lemma weightedSum_andMask_le (w : List ℚ) (hw : ∀ x ∈ w, 0 ≤ x) :
    ∀ m g : List Bool, weightedSum w (andMask m g) ≤ weightedSum w m := by
  induction w with
  | nil => intro m g; simp [weightedSum]
  | cons x w ih =>
      intro m g
      cases m with
      | nil => simp [weightedSum, andMask]
      | cons b m =>
          cases g with
          | nil =>
              simp only [andMask, List.zipWith_nil_right, weightedSum, List.zipWith_nil_right,
                List.sum_nil]
              exact weightedSum_nonneg (x :: w) hw (b :: m)
          | cons bg g =>
              have h1 : 0 ≤ x := hw x (List.mem_cons_self x w)
              have h2 := ih (fun y hy => hw y (List.mem_cons_of_mem _ hy)) m g
              simp only [andMask, List.zipWith_cons_cons, weightedSum, List.sum_cons] at h2 ⊢
              have h3 : (if (b && bg) = true then x else 0) ≤ if b = true then x else 0 := by
                cases b <;> cases bg <;> simp [h1]
              linarith

/-! ### Cutflow lemmas -/

/-- The cutflow loop, started with an accumulated prefix `acc` of already-applied cuts,
succeeds when all names are registered, and its `i`-th entry records the selected-weight
sum of the AND of `acc` and the first `i+1` remaining cuts. -/
lemma cutflowAux_spec (sel : PackedSelection) (w : List ℚ) :
    ∀ (names acc : List String),
      (∀ nm ∈ acc, (sel.get nm).isSome) →
      (∀ nm ∈ names, (sel.get nm).isSome) →
      ∃ cf, cutflowAux sel w acc names = .ok cf ∧
        cf.map Prod.fst = names ∧
        ∀ i, i < names.length →
          cf.getD i ("", 0) =
            (names.getD i "",
             weightedSum w (andFoldD sel (List.replicate sel.nevents true)
               (acc ++ names.take (i+1)))) := by
  intro names
  induction names with
  | nil =>
      intro acc _ _
      exact ⟨[], rfl, rfl, fun i hi => absurd hi (by simp)⟩
  | cons nm rest ih =>
      intro acc hacc hnames
      have hnm : (sel.get nm).isSome := hnames nm (List.mem_cons_self nm rest)
      have hacc' : ∀ x ∈ acc ++ [nm], (sel.get x).isSome := by
        intro x hx
        rcases List.mem_append.mp hx with h | h
        · exact hacc x h
        · simp at h; subst h; exact hnm
      have hrest : ∀ x ∈ rest, (sel.get x).isSome :=
        fun x hx => hnames x (List.mem_cons_of_mem _ hx)
      have hcur := allOf_ok sel (acc ++ [nm]) hacc'
      obtain ⟨tail, htail, hmap, hent⟩ := ih (acc ++ [nm]) hacc' hrest
      refine ⟨(nm, weightedSum w (andFoldD sel (List.replicate sel.nevents true)
        (acc ++ [nm]))) :: tail, ?_, by simp [hmap], ?_⟩
      · simp only [cutflowAux, hcur, htail]
      · intro i hi
        cases i with
        | zero => simp
        | succ i =>
            have hi' : i < rest.length := by simpa using hi
            have := hent i hi'
            simp only [List.getD_cons_succ, this, List.getD_cons_succ]
            have harr : (acc ++ [nm]) ++ rest.take (i+1) = acc ++ (nm :: rest).take (i+1+1) := by
              simp [List.append_assoc]
            rw [harr]

/-- For nonnegative weights the cutflow recorded by the loop is non-increasing:
each entry is bounded by the selected-weight sum of the accumulated prefix, and each
additional AND can only lower it. -/
lemma cutflowAux_monotone (sel : PackedSelection) (w : List ℚ) (hw : ∀ x ∈ w, 0 ≤ x) :
    ∀ (names acc : List String) (cf : List (String × ℚ)),
      cutflowAux sel w acc names = .ok cf →
      cutflowMonotone cf ∧
      (cf ≠ [] → ∀ m₀, sel.allOf acc = .ok m₀ →
        (cf.getD 0 ("", 0)).2 ≤ weightedSum w m₀) := by
  intro names
  induction names with
  | nil =>
      intro acc cf h
      simp only [cutflowAux] at h
      obtain rfl : ([] : List (String × ℚ)) = cf := by
        cases h; rfl
      exact ⟨fun i hi => absurd hi (by simp), fun hne => absurd rfl hne⟩
  | cons nm rest ih =>
      intro acc cf h
      simp only [cutflowAux] at h
      cases hcur : sel.allOf (acc ++ [nm]) with
      | error e => rw [hcur] at h; cases h
      | ok cur =>
          rw [hcur] at h
          cases htail : cutflowAux sel w (acc ++ [nm]) rest with
          | error e => rw [htail] at h; cases h
          | ok tail =>
              rw [htail] at h
              obtain rfl : (nm, weightedSum w cur) :: tail = cf := by cases h; rfl
              obtain ⟨hmono, hhead⟩ := ih (acc ++ [nm]) tail htail
              constructor
              · intro i hi
                cases i with
                | zero =>
                    have hne : tail ≠ [] := by
                      intro hemp
                      rw [hemp] at hi
                      simp at hi
                    simp only [List.getD_cons_succ, List.getD_cons_zero]
                    exact hhead hne cur hcur
                | succ i =>
                    have hi' : i + 1 < tail.length := by simpa using hi
                    simpa using hmono i hi'
              · intro _ m₀ hm₀
                simp only [List.getD_cons_zero]
                have happ := allOfAux_append_singleton sel nm acc
                  (List.replicate sel.nevents true)
                rw [show allOfAux sel (List.replicate sel.nevents true) acc = .ok m₀ from hm₀]
                  at happ
                cases hg : sel.get nm with
                | none =>
                    rw [hg] at happ
                    rw [show sel.allOf (acc ++ [nm]) = allOfAux sel
                      (List.replicate sel.nevents true) (acc ++ [nm]) from rfl] at hcur
                    rw [happ] at hcur
                    cases hcur
                | some g =>
                    rw [hg] at happ
                    rw [show sel.allOf (acc ++ [nm]) = allOfAux sel
                      (List.replicate sel.nevents true) (acc ++ [nm]) from rfl] at hcur
                    rw [happ] at hcur
                    obtain rfl : andMask m₀ g = cur := by cases hcur; rfl
                    exact weightedSum_andMask_le w hw m₀ g

/-! ### Mask-registration lemmas -/

/-- Registering a list of masks with pairwise-distinct fresh names succeeds and yields
exactly that list of registered masks. -/
lemma mkSelections_go (l : List (String × List Bool)) :
    ∀ s : PackedSelection,
      (s.masks.map Prod.fst ++ l.map Prod.fst).Nodup →
      l.foldlM (fun s p => s.add p.1 p.2) s = .ok ⟨s.nevents, s.masks ++ l⟩ := by
  induction l with
  | nil => intro s _; rw [List.append_nil]; rfl
  | cons p l ih =>
      intro s h
      have hnotin : p.1 ∉ s.masks.map Prod.fst := by
        rw [List.map_cons, List.nodup_append] at h
        intro hmem
        exact h.2.2 hmem (List.mem_cons_self p.1 (l.map Prod.fst))
      have hget : s.get p.1 = none := lookup_eq_none_of_not_mem _ _ hnotin
      have hadd : s.add p.1 p.2 = .ok ⟨s.nevents, s.masks ++ [p]⟩ := by
        simp [PackedSelection.add, hget]
      rw [List.foldlM_cons, hadd]
      show List.foldlM (fun (s : PackedSelection) (p : String × List Bool) => s.add p.1 p.2)
        (⟨s.nevents, s.masks ++ [p]⟩ : PackedSelection) l =
        Except.ok (⟨s.nevents, s.masks ++ p :: l⟩ : PackedSelection)
      rw [ih ⟨s.nevents, s.masks ++ [p]⟩ (by simpa [List.append_assoc] using h)]
      simp

/-- The thirteen registrations of lines 244-297 all succeed (their names are pairwise
distinct), and the resulting registry holds exactly those masks in order. -/
lemma mkSelections_ok (ext : Externals) (c : Chunk) (gl : List (List Lepton))
    (bj : List (List Jet)) (kv : KinVars) :
    mkSelections c.nevents (selectionMasks ext c gl bj kv) =
      .ok ⟨c.nevents, selectionMasks ext c gl bj kv⟩ := by
  have h := mkSelections_go (selectionMasks ext c gl bj kv) ⟨c.nevents, []⟩ ?_
  · simpa [mkSelections] using h
  · simp only [selectionMasks, List.map_cons, List.map_nil, List.nil_append]
    decide

/-- Every cut name of a channel's region list is registered in the selection registry
built from the thirteen masks. -/
lemma region_names_registered (ext : Externals) (c : Chunk) (gl : List (List Lepton))
    (bj : List (List Jet)) (kv : KinVars) (flavor : String)
    (hfl : flavor = "ele" ∨ flavor = "mu") :
    ∀ nm ∈ regionNames flavor,
      ((⟨c.nevents, selectionMasks ext c gl bj kv⟩ : PackedSelection).get nm).isSome := by
  rcases hfl with rfl | rfl
  · intro nm hnm
    rw [show regionNames "ele" = ["goodvertex", "lumi", "trigger_ele", "metfilters",
      "bjet_veto", "two_leptons", "neutral", "mass_range", "mthlt60", "ee"] from rfl] at hnm
    have h : nm = "goodvertex" ∨ nm = "lumi" ∨ nm = "trigger_ele" ∨ nm = "metfilters" ∨
        nm = "bjet_veto" ∨ nm = "two_leptons" ∨ nm = "neutral" ∨ nm = "mass_range" ∨
        nm = "mthlt60" ∨ nm = "ee" := by
      simpa using hnm
    rcases h with rfl | rfl | rfl | rfl | rfl | rfl | rfl | rfl | rfl | rfl <;> rfl
  · intro nm hnm
    rw [show regionNames "mu" = ["goodvertex", "lumi", "trigger_mu", "metfilters",
      "bjet_veto", "two_leptons", "neutral", "mass_range", "mthlt60", "mumu"] from rfl] at hnm
    have h : nm = "goodvertex" ∨ nm = "lumi" ∨ nm = "trigger_mu" ∨ nm = "metfilters" ∨
        nm = "bjet_veto" ∨ nm = "two_leptons" ∨ nm = "neutral" ∨ nm = "mass_range" ∨
        nm = "mthlt60" ∨ nm = "mumu" := by
      simpa using hnm
    rcases h with rfl | rfl | rfl | rfl | rfl | rfl | rfl | rfl | rfl | rfl <;> rfl

lemma specPrefixMask_eq (sel : PackedSelection) (names : List String) (i : ℕ) :
    specPrefixMask sel names i =
      andFoldD sel (List.replicate sel.nevents true) (names.take (i+1)) := by
  simp only [specPrefixMask, andFoldD]
  rw [List.foldl_map]

/-! ### Claim theorems: cutflow (C1, C2) -/

/-- **C1**: for the region list of the configured lepton flavor, the cutflow record of
the loop at ztoll_processor.py:330-338 has one entry per cut in list order, and maps the
`i`-th cut name to the sum of the combined nominal event weights over exactly the events
that satisfy the elementwise AND of the first `i+1` masks of the region's ordered cut
list. -/
theorem cutflow_prefix_weight_sums (sel : PackedSelection) (w : List ℚ) (flavor : String)
    (hfl : flavor = "ele" ∨ flavor = "mu")
    (hreg : ∀ nm ∈ regionNames flavor, (sel.get nm).isSome) :
    ∃ cf, cutflowLoop sel w (regionNames flavor) = .ok cf ∧
      cf.map Prod.fst = regionNames flavor ∧
      ∀ i, i < (regionNames flavor).length →
        cf.getD i ("", 0) =
          ((regionNames flavor).getD i "",
           weightedSum w (specPrefixMask sel (regionNames flavor) i)) := by
  obtain ⟨cf, hok, hmap, hent⟩ :=
    cutflowAux_spec sel w (regionNames flavor) [] (by simp) hreg
  refine ⟨cf, hok, hmap, fun i hi => ?_⟩
  rw [hent i hi, specPrefixMask_eq, List.nil_append]

/-- A concrete selection registry holding the ten "ele"-region masks over one event. -/
def selW : PackedSelection :=
  ⟨1, [("goodvertex", [true]), ("lumi", [true]), ("trigger_ele", [true]),
      ("metfilters", [true]), ("bjet_veto", [true]), ("two_leptons", [true]),
      ("neutral", [true]), ("mass_range", [true]), ("mthlt60", [false]),
      ("ee", [false])]⟩

/-- Witness for C1 at a concrete registry and weight vector. -/
theorem cutflow_prefix_weight_sums_witness :
    ("ele" = "ele" ∨ ("ele" : String) = "mu") ∧
    (∀ nm ∈ regionNames "ele", (selW.get nm).isSome) ∧
    (∃ cf, cutflowLoop selW [1] (regionNames "ele") = .ok cf ∧
      cf.map Prod.fst = regionNames "ele" ∧
      ∀ i, i < (regionNames "ele").length →
        cf.getD i ("", 0) =
          ((regionNames "ele").getD i "",
           weightedSum [1] (specPrefixMask selW (regionNames "ele") i))) :=
  ⟨Or.inl rfl, by decide,
   cutflow_prefix_weight_sums selW [1] "ele" (Or.inl rfl) (by decide)⟩

/-- **C2 (amended)**: whenever all combined nominal event weights are nonnegative, the
weight-sum sequence recorded by the cutflow loop is monotonically non-increasing. -/
theorem cutflow_monotone_of_nonneg_weights (sel : PackedSelection) (w : List ℚ)
    (names : List String) (cf : List (String × ℚ))
    (hw : ∀ x ∈ w, 0 ≤ x) (h : cutflowLoop sel w names = .ok cf) :
    cutflowMonotone cf :=
  (cutflowAux_monotone sel w hw names [] cf h).1

/-- The cutflow record of `selW` over the unit weight vector. -/
def cfSelW : List (String × ℚ) :=
  [("goodvertex", 1), ("lumi", 1), ("trigger_ele", 1), ("metfilters", 1),
   ("bjet_veto", 1), ("two_leptons", 1), ("neutral", 1), ("mass_range", 1),
   ("mthlt60", 0), ("ee", 0)]

/-- Witness for the amended C2 at a concrete registry and nonnegative weights. -/
theorem cutflow_monotone_of_nonneg_weights_witness :
    (∀ x ∈ ([1] : List ℚ), 0 ≤ x) ∧
    cutflowLoop selW [1] (regionNames "ele") = .ok cfSelW ∧
    cutflowMonotone cfSelW := by
  have hws1 : weightedSum [1] [true] = 1 := by norm_num [weightedSum]
  have hws0 : weightedSum [1] [false] = 0 := by norm_num [weightedSum]
  have hloop : cutflowLoop selW [1] (regionNames "ele") = .ok cfSelW := by
    rw [show regionNames "ele" = ["goodvertex", "lumi", "trigger_ele", "metfilters",
      "bjet_veto", "two_leptons", "neutral", "mass_range", "mthlt60", "ee"] from rfl]
    simp only [cutflowLoop, cutflowAux, List.nil_append, List.cons_append,
      show selW.allOf ["goodvertex"] = .ok [true] from rfl,
      show selW.allOf ["goodvertex", "lumi"] = .ok [true] from rfl,
      show selW.allOf ["goodvertex", "lumi", "trigger_ele"] = .ok [true] from rfl,
      show selW.allOf ["goodvertex", "lumi", "trigger_ele", "metfilters"] =
        .ok [true] from rfl,
      show selW.allOf ["goodvertex", "lumi", "trigger_ele", "metfilters",
        "bjet_veto"] = .ok [true] from rfl,
      show selW.allOf ["goodvertex", "lumi", "trigger_ele", "metfilters",
        "bjet_veto", "two_leptons"] = .ok [true] from rfl,
      show selW.allOf ["goodvertex", "lumi", "trigger_ele", "metfilters",
        "bjet_veto", "two_leptons", "neutral"] = .ok [true] from rfl,
      show selW.allOf ["goodvertex", "lumi", "trigger_ele", "metfilters",
        "bjet_veto", "two_leptons", "neutral", "mass_range"] = .ok [true] from rfl,
      show selW.allOf ["goodvertex", "lumi", "trigger_ele", "metfilters",
        "bjet_veto", "two_leptons", "neutral", "mass_range", "mthlt60"] =
        .ok [false] from rfl,
      show selW.allOf ["goodvertex", "lumi", "trigger_ele", "metfilters",
        "bjet_veto", "two_leptons", "neutral", "mass_range", "mthlt60", "ee"] =
        .ok [false] from rfl,
      hws1, hws0, cfSelW]
  exact ⟨by decide, hloop,
    cutflow_monotone_of_nonneg_weights selW [1] (regionNames "ele") cfSelW (by decide) hloop⟩

/-! ### Concrete processor inputs for witnesses and counterexamples -/

/-- A demonstration set of external collaborators: every object passes the selection
predicates, kinematic corrections act as the identity, the dilepton system is assigned an
invariant mass of 91 and a transverse mass of 100, no MC weight beyond the generator
weight is registered, and the run-period configuration lists one electron trigger, one
muon trigger and one MET filter. -/
def extDemo : Externals where
  select_good_electrons := fun c => c.electrons.map (fun evs => evs.map (fun _ => true))
  select_good_muons := fun c => c.muons.map (fun evs => evs.map (fun _ => true))
  jet_corrections := fun c => (c.jets, c.met)
  good_bjets := fun _ js _ => js.map (fun evs => evs.map (fun _ => true))
  met_corr := fun p q _ => (p, q)
  lumi_mask := fun r _ => r.map (fun _ => true)
  triggers := fun ch => if ch = "ele" then ["Ele35_WPTight_Gsf"] else ["IsoMu27"]
  metfilters := fun _ => ["goodVertices"]
  addMCWeights := fun _ w => w
  kinVars := fun gl _ =>
    { ptl1 := gl.map (fun _ => 30), ptl2 := gl.map (fun _ => 30),
      ptll := gl.map (fun _ => 60), mll := gl.map (fun _ => 91),
      dphill := gl.map (fun _ => 0), drll := gl.map (fun _ => 1),
      mth := gl.map (fun _ => 100) }

/-- The electron-channel configuration. -/
def cfgEle : Config := ⟨"2017", "ele"⟩

/-- A one-event simulated chunk with a negative generator weight whose event passes
every "ele"-region cut up to and including `mass_range` and fails `mthlt60`. -/
def chunkCx : Chunk where
  nevents := 1
  genWeight := some [-1]
  run := [1]
  luminosityBlock := [1]
  npvsGood := [1]
  hlt := [("Ele35_WPTight_Gsf", [true])]
  flag := [("goodVertices", [true])]
  electrons := [[⟨30, 0, 0, 0, -1, 11⟩, ⟨30, 1, 1, 0, 1, -11⟩]]
  muons := [[]]
  jets := [[]]
  met := ⟨[50], [0]⟩

/-- The weight ledger `processCore` builds for `chunkCx`. -/
def wCx : Weights := ⟨1, [⟨"genweight", [-1], none⟩]⟩

/-- The cutflow record `processCore` computes for `chunkCx`: the weighted yield rises
from `-1` to `0` at the `mthlt60` cut because the surviving weight is negative. -/
def cfCx : List (String × ℚ) :=
  [("goodvertex", -1), ("lumi", -1), ("trigger_ele", -1), ("metfilters", -1),
   ("bjet_veto", -1), ("two_leptons", -1), ("neutral", -1), ("mass_range", -1),
   ("mthlt60", 0), ("ee", 0)]

/-- The metadata `process` returns for `chunkCx`. -/
def mdCx : Metadata :=
  ⟨-1, [("genweight", (-1, 1, 1))], cfCx, 1, 0⟩

/-- **C2 counterexample**: a processed simulated chunk (negative generator weight) whose
recorded "ele"-region cutflow strictly increases between consecutive cuts, so the
weight-sum sequence of the cutflow is not monotonically non-increasing. -/
theorem cutflow_not_monotone_counterexample :
    process cfgEle extDemo initState chunkCx = (initState, .ok ⟨mdCx, []⟩) ∧
    ¬ cutflowMonotone mdCx.cutflow := by
  constructor
  · have h1 : processCore cfgEle extDemo chunkCx =
        .ok (⟨wCx.weight.sum, weightStatistics wCx,
          [("goodvertex", weightedSum wCx.weight [true]),
           ("lumi", weightedSum wCx.weight [true]),
           ("trigger_ele", weightedSum wCx.weight [true]),
           ("metfilters", weightedSum wCx.weight [true]),
           ("bjet_veto", weightedSum wCx.weight [true]),
           ("two_leptons", weightedSum wCx.weight [true]),
           ("neutral", weightedSum wCx.weight [true]),
           ("mass_range", weightedSum wCx.weight [true]),
           ("mthlt60", weightedSum wCx.weight [false]),
           ("ee", weightedSum wCx.weight [false])], 1, 0⟩, none) := rfl
    have h2 : wCx.weight = [-1] := by norm_num [Weights.weight, wCx]
    have h3 : wCx.weight.sum = -1 := by rw [h2]; norm_num
    have h4 : weightedSum wCx.weight [true] = -1 := by rw [h2]; norm_num [weightedSum]
    have h5 : weightedSum wCx.weight [false] = 0 := by rw [h2]; norm_num [weightedSum]
    have h6 : weightStatistics wCx = [("genweight", (-1, 1, 1))] := by
      norm_num [weightStatistics, wCx]
    rw [h3, h4, h5, h6] at h1
    unfold process
    rw [h1]
    rfl
  · intro h
    have h8 := h 7 (by decide)
    rw [show (mdCx.cutflow.getD 8 ("", 0)).2 = 0 from rfl,
      show (mdCx.cutflow.getD 7 ("", 0)).2 = -1 from rfl] at h8
    exact absurd h8 (by norm_num)

/-! ### Claim theorems: lepton correctors (C3, C4, C5, C10) -/

/-- **C3**: for a `MuonCorrector` whose ID or iso working point is not `"tight"`,
`add_triggeriso_weight` fails immediately (the `assert` is its first statement): no
scale-factor lookup is performed (the recorded lookup list is empty) and no weight factor
is registered — the error return carries no updated ledger, so the caller's ledger is
unchanged. -/
theorem triggeriso_requires_tight_wps (sfS : LookupCall → List ℚ) (c : MuonCorrector)
    (w : Weights) (h : c.id_wp ≠ "tight" ∨ c.iso_wp ≠ "tight") :
    MuonCorrector.add_triggeriso_weight sfS c w = ([], .error triggerAssertMsg) := by
  unfold MuonCorrector.add_triggeriso_weight
  rw [if_neg (fun hc => h.elim (fun h1 => h1 hc.1) (fun h2 => h2 hc.2))]

/-- A muon corrector configured with a loose ID working point. -/
def cmLoose : MuonCorrector := ⟨"nominal", "loose", "tight", [30], [1], [1], "2017"⟩

/-- A trivial scale-factor service returning 1 for every object. -/
def sfSW : LookupCall → List ℚ := fun call => call.pts.map (fun _ => 1)

/-- An empty one-event weight ledger. -/
def wEmpty : Weights := ⟨1, []⟩

/-- Witness for C3 at `id_wp = "loose"`. -/
theorem triggeriso_requires_tight_wps_witness :
    (cmLoose.id_wp ≠ "tight" ∨ cmLoose.iso_wp ≠ "tight") ∧
    MuonCorrector.add_triggeriso_weight sfSW cmLoose wEmpty =
      ([], .error triggerAssertMsg) :=
  ⟨Or.inl (by decide),
   triggeriso_requires_tight_wps sfSW cmLoose wEmpty (Or.inl (by decide))⟩

/-- **C10**: for a `MuonCorrector` whose iso working point is outside
`{"loose", "tight"}`, every `add_weight` call — for any `sf_type`, so in particular both
`add_id_weight` and `add_iso_weight` — fails with an error before any scale-factor
lookup, because the `iso_correction` local is never assigned before the `sfs_keys` dict
is built (a Python `NameError`; a `KeyError` fires first when the ID working point is
itself unrecognized). -/
theorem iso_wp_outside_loose_tight_always_fails (sfS : LookupCall → List ℚ)
    (c : MuonCorrector) (w : Weights) (sf_type : String)
    (h1 : c.iso_wp ≠ "loose") (h2 : c.iso_wp ≠ "tight") :
    ∃ msg, MuonCorrector.add_weight sfS c w sf_type = ([], .error msg) := by
  unfold MuonCorrector.add_weight
  rw [if_neg (fun hc => h2 hc.1)]
  have hiso : muonIsoCorrection c.iso_wp c.id_wp = none := by
    unfold muonIsoCorrection
    rw [if_neg h1, if_neg h2]
  cases hid : List.lookup c.id_wp muonIdKeys with
  | none => exact ⟨"KeyError: " ++ c.id_wp, rfl⟩
  | some idKey =>
      refine ⟨"NameError: local variable iso_correction referenced before assignment", ?_⟩
      rw [hiso]

/-- A muon corrector configured with the documented-but-unsupported iso working point
`"medium"`. -/
def cmMediumIso : MuonCorrector := ⟨"nominal", "tight", "medium", [30], [1], [1], "2017"⟩

/-- Witness for C10 at `iso_wp = "medium"`, requesting only the ID scale factor. -/
theorem iso_wp_outside_loose_tight_always_fails_witness :
    (cmMediumIso.iso_wp ≠ "loose") ∧ (cmMediumIso.iso_wp ≠ "tight") ∧
    (∃ msg, MuonCorrector.add_weight sfSW cmMediumIso wEmpty "id" = ([], .error msg)) :=
  ⟨by decide, by decide,
   iso_wp_outside_loose_tight_always_fails sfSW cmMediumIso wEmpty "id"
     (by decide) (by decide)⟩

/-- **C4**: every scale-factor lookup performed by the correctors receives inputs clamped
to the corrector-specific domain: the electron ID lookup passes eta unclamped and pt
clamped to [10, 499.999]; the muon ID/iso lookups pass |eta| clamped to [0, 2.399] and pt
clamped to [15, 119.999]; the muon trigger lookup passes |eta| clamped to [0, 2.399] and
pt clamped to [29, 199.999]. -/
theorem lookup_inputs_clamped (sfS : LookupCall → List ℚ) (ce : ElectronCorrector)
    (we : Weights) (idwp : String) (cm : MuonCorrector) (wm : Weights) (sfT : String) :
    (∀ call ∈ (ElectronCorrector.add_id_weight sfS ce we idwp).1,
        call.etas = ce.etas ∧ call.pts = ce.pts.map (fun x => clip x 10 499.999)) ∧
    (∀ call ∈ (MuonCorrector.add_weight sfS cm wm sfT).1,
        call.etas = cm.etas.map (fun x => clip |x| 0 2.399) ∧
        call.pts = cm.pts.map (fun x => clip x 15 119.999)) ∧
    (∀ call ∈ (MuonCorrector.add_triggeriso_weight sfS cm wm).1,
        call.etas = cm.etas.map (fun x => clip |x| 0 2.399) ∧
        call.pts = cm.pts.map (fun x => clip x 29 199.999)) := by
  refine ⟨?_, ?_, ?_⟩
  · unfold ElectronCorrector.add_id_weight
    by_cases hv : ce.variation = "nominal"
    · rw [if_pos hv]
      intro call hc
      simp only [List.mem_cons, List.mem_singleton, List.not_mem_nil, or_false] at hc
      rcases hc with rfl | rfl | rfl <;> exact ⟨rfl, rfl⟩
    · rw [if_neg hv]
      intro call hc
      simp only [List.mem_singleton] at hc
      subst hc
      exact ⟨rfl, rfl⟩
  · unfold MuonCorrector.add_weight
    by_cases hA : cm.iso_wp = "tight" ∧ cm.id_wp = "loose"
    · rw [if_pos hA]; intro call hc; simp at hc
    · rw [if_neg hA]
      cases hid : List.lookup cm.id_wp muonIdKeys with
      | none => intro call hc; simp at hc
      | some idKey =>
          cases hiso : muonIsoCorrection cm.iso_wp cm.id_wp with
          | none => intro call hc; simp at hc
          | some isoKey =>
              dsimp only
              cases hty : List.lookup sfT [("id", idKey), ("iso", isoKey)] with
              | none => intro call hc; simp at hc
              | some key =>
                  dsimp only
                  by_cases hv : cm.variation = "nominal"
                  · rw [if_pos hv]
                    intro call hc
                    simp only [List.mem_cons, List.mem_singleton, List.not_mem_nil,
                      or_false] at hc
                    rcases hc with rfl | rfl | rfl <;> exact ⟨rfl, rfl⟩
                  · rw [if_neg hv]
                    intro call hc
                    simp only [List.mem_singleton] at hc
                    subst hc
                    exact ⟨rfl, rfl⟩
  · unfold MuonCorrector.add_triggeriso_weight
    by_cases hA : cm.id_wp = "tight" ∧ cm.iso_wp = "tight"
    · rw [if_pos hA]
      cases hy : List.lookup cm.year muonTriggerKeys with
      | none => intro call hc; simp at hc
      | some key =>
          dsimp only
          by_cases hv : cm.variation = "nominal"
          · rw [if_pos hv]
            intro call hc
            simp only [List.mem_cons, List.mem_singleton, List.not_mem_nil, or_false] at hc
            rcases hc with rfl | rfl | rfl <;> exact ⟨rfl, rfl⟩
          · rw [if_neg hv]
            intro call hc
            simp only [List.mem_singleton] at hc
            subst hc
            exact ⟨rfl, rfl⟩
    · rw [if_neg hA]; intro call hc; simp at hc

/-- A concrete electron corrector with an out-of-range pt (600). -/
def ceW : ElectronCorrector := ⟨"nominal", [600], [2], [1]⟩

/-- A concrete muon corrector with tight working points and a negative eta. -/
def cmW : MuonCorrector := ⟨"nominal", "tight", "tight", [30], [-3], [1], "2017"⟩

/-- Witness for C4: the first recorded lookup of each corrector method, at concrete
inputs, carries the clamped kinematics. -/
theorem lookup_inputs_clamped_witness :
    ((mkElectronIdCall ceW "wp90iso" "sf").etas = ceW.etas ∧
     (mkElectronIdCall ceW "wp90iso" "sf").pts =
       ceW.pts.map (fun x => clip x 10 499.999)) ∧
    ((mkMuonCall "NUM_TightID_DEN_TrackerMuons" "sf"
        (cmW.etas.map (fun x => clip |x| 0 2.399))
        (cmW.pts.map (fun x => clip x 15 119.999))).etas =
          cmW.etas.map (fun x => clip |x| 0 2.399) ∧
     (mkMuonCall "NUM_TightID_DEN_TrackerMuons" "sf"
        (cmW.etas.map (fun x => clip |x| 0 2.399))
        (cmW.pts.map (fun x => clip x 15 119.999))).pts =
          cmW.pts.map (fun x => clip x 15 119.999)) ∧
    ((mkMuonCall "NUM_IsoMu27_DEN_CutBasedIdTight_and_PFIsoTight" "sf"
        (cmW.etas.map (fun x => clip |x| 0 2.399))
        (cmW.pts.map (fun x => clip x 29 199.999))).etas =
          cmW.etas.map (fun x => clip |x| 0 2.399) ∧
     (mkMuonCall "NUM_IsoMu27_DEN_CutBasedIdTight_and_PFIsoTight" "sf"
        (cmW.etas.map (fun x => clip |x| 0 2.399))
        (cmW.pts.map (fun x => clip x 29 199.999))).pts =
          cmW.pts.map (fun x => clip x 29 199.999)) :=
  ⟨(lookup_inputs_clamped sfSW ceW wEmpty "wp90iso" cmW wEmpty "id").1 _
      (List.mem_cons_self _ _),
   (lookup_inputs_clamped sfSW ceW wEmpty "wp90iso" cmW wEmpty "id").2.1 _
      (List.mem_cons_self _ _),
   (lookup_inputs_clamped sfSW ceW wEmpty "wp90iso" cmW wEmpty "id").2.2 _
      (List.mem_cons_self _ _)⟩

/-- Inversion for a successful `Weights.add`: the new ledger extends the old factor list
by exactly one factor with the given name and nominal array, whose variants are present
iff both up and down arrays were supplied (and are then exactly that pair). -/
lemma weights_add_ok_inv (w : Weights) (name : String) (wnom : List ℚ)
    (wUp wDown : Option (List ℚ)) (w' : Weights)
    (h : w.add name wnom wUp wDown = .ok w') :
    ∃ v, w'.factors = w.factors ++ [⟨name, wnom, v⟩] ∧
      (v.isSome = true ↔ wUp.isSome = true ∧ wDown.isSome = true) ∧
      (∀ u d, wUp = some u → wDown = some d → v = some (u, d)) := by
  unfold Weights.add at h
  split at h
  · cases h
  · split at h
    · cases h
    · rcases wUp with _ | u <;> rcases wDown with _ | d <;> dsimp only at h
      · refine ⟨none, ?_, by simp, by intro u d hu _; cases hu⟩
        rw [← Except.ok.inj h]
      · cases h
      · cases h
      · split at h
        · refine ⟨some (u, d), ?_, by simp, ?_⟩
          · rw [← Except.ok.inj h]
          · intro u' d' hu hd
            cases hu; cases hd; rfl
        · cases h

/-- For any working-point combination the source supports — i.e. whenever the `assert`
at lepton.py:291-292 does not fire, `id_corrections[self.id_wp]` resolves and the
`iso_correction` local was assigned (the three lookup-fact hypotheses) —
`MuonCorrector.add_weight` performs the variation-controlled lookups and registration of
lepton.py:323-346: three lookups and a paired-variant factor under `"nominal"`, one
lookup and a variant-free factor otherwise. -/
lemma muon_add_weight_variants (sfS : LookupCall → List ℚ) (cm : MuonCorrector)
    (wm : Weights) (sfT idKey isoKey key : String)
    (hA : ¬(cm.iso_wp = "tight" ∧ cm.id_wp = "loose"))
    (hid : List.lookup cm.id_wp muonIdKeys = some idKey)
    (hiso : muonIsoCorrection cm.iso_wp cm.id_wp = some isoKey)
    (hty : List.lookup sfT [("id", idKey), ("iso", isoKey)] = some key) :
    ((MuonCorrector.add_weight sfS cm wm sfT).1.map (fun c => c.variant) =
      if cm.variation = "nominal" then ["sf", "systup", "systdown"] else ["sf"]) ∧
    (∀ w', (MuonCorrector.add_weight sfS cm wm sfT).2 = .ok w' →
      ∃ f, w'.factors = wm.factors ++ [f] ∧
        (f.variants.isSome = true ↔ cm.variation = "nominal")) := by
  unfold MuonCorrector.add_weight
  rw [if_neg hA, hid]
  dsimp only
  rw [hiso]
  dsimp only
  rw [hty]
  dsimp only
  by_cases hv : cm.variation = "nominal"
  · constructor
    · rw [if_pos hv, if_pos hv]; rfl
    · intro w' h
      rw [if_pos hv] at h
      dsimp only at h
      obtain ⟨v, hfac, _, hpair⟩ := weights_add_ok_inv _ _ _ _ _ _ h
      exact ⟨_, hfac, by rw [hpair _ _ rfl rfl]; simp [hv]⟩
  · constructor
    · rw [if_neg hv, if_neg hv]; rfl
    · intro w' h
      rw [if_neg hv] at h
      dsimp only at h
      obtain ⟨v, hfac, hsome, _⟩ := weights_add_ok_inv _ _ _ _ _ _ h
      have hvnone : v = none := by
        rcases v with _ | p
        · rfl
        · exact absurd (hsome.mp rfl).1 (by simp)
      exact ⟨_, hfac, by rw [hvnone]; simp [hv]⟩

/-- **C5**: per corrector `add_<x>_weight` call, if the corrector's variation flag is
`"nominal"` the `"up"`/`"down"` variants are additionally looked up and the factor is
registered with the paired variant arrays; for any other variation only the nominal
scale factor is looked up and the factor is registered without variants.  Stated for
`ElectronCorrector.add_id_weight` (with the registered factor fully explicit) and for
`MuonCorrector.add_weight` over every working-point combination the source supports:
iso `"loose"` with id `"loose"`/`"medium"`/`"tight"`, and iso `"tight"` with id
`"medium"`/`"tight"` (lepton.py:306-317; the remaining combinations error out before
any lookup, per C3 and C10). -/
theorem variation_controls_variants (sfS : LookupCall → List ℚ) (ce : ElectronCorrector)
    (we : Weights) (idwp : String) (cm : MuonCorrector) (wm : Weights) (sfT : String)
    (hwp : (cm.iso_wp = "loose" ∧
             (cm.id_wp = "loose" ∨ cm.id_wp = "medium" ∨ cm.id_wp = "tight")) ∨
           (cm.iso_wp = "tight" ∧ (cm.id_wp = "medium" ∨ cm.id_wp = "tight")))
    (hsfT : sfT = "id" ∨ sfT = "iso") :
    ((ElectronCorrector.add_id_weight sfS ce we idwp).1.map (fun c => c.variant) =
      if ce.variation = "nominal" then ["sf", "sfup", "sfdown"] else ["sf"]) ∧
    (∀ w', (ElectronCorrector.add_id_weight sfS ce we idwp).2 = .ok w' →
      w'.factors = we.factors ++
        [⟨"electron_id", unflat_sf (sfS (mkElectronIdCall ce idwp "sf")) ce.counts,
          if ce.variation = "nominal" then
            some (unflat_sf (sfS (mkElectronIdCall ce idwp "sfup")) ce.counts,
                  unflat_sf (sfS (mkElectronIdCall ce idwp "sfdown")) ce.counts)
          else none⟩]) ∧
    ((MuonCorrector.add_weight sfS cm wm sfT).1.map (fun c => c.variant) =
      if cm.variation = "nominal" then ["sf", "systup", "systdown"] else ["sf"]) ∧
    (∀ w', (MuonCorrector.add_weight sfS cm wm sfT).2 = .ok w' →
      ∃ f, w'.factors = wm.factors ++ [f] ∧
        (f.variants.isSome = true ↔ cm.variation = "nominal")) := by
  have hmu : ((MuonCorrector.add_weight sfS cm wm sfT).1.map (fun c => c.variant) =
      if cm.variation = "nominal" then ["sf", "systup", "systdown"] else ["sf"]) ∧
      (∀ w', (MuonCorrector.add_weight sfS cm wm sfT).2 = .ok w' →
        ∃ f, w'.factors = wm.factors ++ [f] ∧
          (f.variants.isSome = true ↔ cm.variation = "nominal")) := by
    rcases hwp with ⟨hIso, hId | hId | hId⟩ | ⟨hIso, hId | hId⟩ <;>
      rcases hsfT with rfl | rfl <;>
      exact muon_add_weight_variants sfS cm wm _ _ _ _
        (by intro hc; rw [hIso, hId] at hc; exact absurd hc (by decide))
        (by rw [hId]; rfl) (by rw [hIso, hId]; rfl) rfl
  refine ⟨?_, ?_, hmu.1, hmu.2⟩
  · unfold ElectronCorrector.add_id_weight
    by_cases hv : ce.variation = "nominal"
    · rw [if_pos hv, if_pos hv]; rfl
    · rw [if_neg hv, if_neg hv]; rfl
  · intro w' h
    unfold ElectronCorrector.add_id_weight at h
    by_cases hv : ce.variation = "nominal"
    · rw [if_pos hv] at h
      dsimp only at h
      obtain ⟨v, hfac, _, hpair⟩ := weights_add_ok_inv _ _ _ _ _ _ h
      rw [hfac, hpair _ _ rfl rfl, if_pos hv]
    · rw [if_neg hv] at h
      dsimp only at h
      obtain ⟨v, hfac, hsome, _⟩ := weights_add_ok_inv _ _ _ _ _ _ h
      have hvnone : v = none := by
        rcases v with _ | p
        · rfl
        · exact absurd (hsome.mp rfl).1 (by simp)
      rw [hfac, hvnone, if_neg hv]

/-- The ledger produced by the electron ID registration at the concrete witness inputs. -/
def wEafter : Weights :=
  ⟨1, [⟨"electron_id", unflat_sf (sfSW (mkElectronIdCall ceW "wp90iso" "sf")) ceW.counts,
    some (unflat_sf (sfSW (mkElectronIdCall ceW "wp90iso" "sfup")) ceW.counts,
          unflat_sf (sfSW (mkElectronIdCall ceW "wp90iso" "sfdown")) ceW.counts)⟩]⟩

/-- The clamped |eta| inputs of the muon ID lookup at the witness corrector. -/
def muIdEta : List ℚ := cmW.etas.map (fun x => clip |x| 0 2.399)

/-- The clamped pt inputs of the muon ID lookup at the witness corrector. -/
def muIdPt : List ℚ := cmW.pts.map (fun x => clip x 15 119.999)

/-- The ledger produced by the muon ID registration at the concrete witness inputs. -/
def wMafter : Weights :=
  ⟨1, [⟨"muon_id",
    unflat_sf (sfSW (mkMuonCall "NUM_TightID_DEN_TrackerMuons" "sf" muIdEta muIdPt))
      cmW.counts,
    some (unflat_sf (sfSW (mkMuonCall "NUM_TightID_DEN_TrackerMuons" "systup"
            muIdEta muIdPt)) cmW.counts,
          unflat_sf (sfSW (mkMuonCall "NUM_TightID_DEN_TrackerMuons" "systdown"
            muIdEta muIdPt)) cmW.counts)⟩]⟩

/-- A muon corrector configured with the loose iso / medium ID combination
("LooseRelIso with mediumID", the combination the source docstring names). -/
def cmML : MuonCorrector := ⟨"nominal", "medium", "loose", [30], [-3], [1], "2017"⟩

/-- The clamped |eta| inputs of the muon lookups at the loose/medium witness. -/
def muMLEta : List ℚ := cmML.etas.map (fun x => clip |x| 0 2.399)

/-- The clamped pt inputs of the muon lookups at the loose/medium witness. -/
def muMLPt : List ℚ := cmML.pts.map (fun x => clip x 15 119.999)

/-- The ledger produced by the muon iso registration at the loose/medium witness. -/
def wMLafter : Weights :=
  ⟨1, [⟨"muon_iso",
    unflat_sf (sfSW (mkMuonCall "NUM_LooseRelIso_DEN_MediumID" "sf" muMLEta muMLPt))
      cmML.counts,
    some (unflat_sf (sfSW (mkMuonCall "NUM_LooseRelIso_DEN_MediumID" "systup"
            muMLEta muMLPt)) cmML.counts,
          unflat_sf (sfSW (mkMuonCall "NUM_LooseRelIso_DEN_MediumID" "systdown"
            muMLEta muMLPt)) cmML.counts)⟩]⟩

/-- Witness for C5 at concrete nominal-variation correctors, exercising both the
tight/tight (ID) and loose-iso/medium-ID (iso) muon configurations. -/
theorem variation_controls_variants_witness :
    ((cmW.iso_wp = "loose" ∧
        (cmW.id_wp = "loose" ∨ cmW.id_wp = "medium" ∨ cmW.id_wp = "tight")) ∨
     (cmW.iso_wp = "tight" ∧ (cmW.id_wp = "medium" ∨ cmW.id_wp = "tight"))) ∧
    (("id" : String) = "id" ∨ ("id" : String) = "iso") ∧
    (ElectronCorrector.add_id_weight sfSW ceW wEmpty "wp90iso").2 = .ok wEafter ∧
    (MuonCorrector.add_weight sfSW cmW wEmpty "id").2 = .ok wMafter ∧
    ((ElectronCorrector.add_id_weight sfSW ceW wEmpty "wp90iso").1.map
        (fun c => c.variant) =
      if ceW.variation = "nominal" then ["sf", "sfup", "sfdown"] else ["sf"]) ∧
    (wEafter.factors = wEmpty.factors ++
      [⟨"electron_id", unflat_sf (sfSW (mkElectronIdCall ceW "wp90iso" "sf")) ceW.counts,
        if ceW.variation = "nominal" then
          some (unflat_sf (sfSW (mkElectronIdCall ceW "wp90iso" "sfup")) ceW.counts,
                unflat_sf (sfSW (mkElectronIdCall ceW "wp90iso" "sfdown")) ceW.counts)
        else none⟩]) ∧
    ((MuonCorrector.add_weight sfSW cmW wEmpty "id").1.map (fun c => c.variant) =
      if cmW.variation = "nominal" then ["sf", "systup", "systdown"] else ["sf"]) ∧
    (∃ f, wMafter.factors = wEmpty.factors ++ [f] ∧
      (f.variants.isSome = true ↔ cmW.variation = "nominal")) ∧
    ((cmML.iso_wp = "loose" ∧
        (cmML.id_wp = "loose" ∨ cmML.id_wp = "medium" ∨ cmML.id_wp = "tight")) ∨
     (cmML.iso_wp = "tight" ∧ (cmML.id_wp = "medium" ∨ cmML.id_wp = "tight"))) ∧
    (("iso" : String) = "id" ∨ ("iso" : String) = "iso") ∧
    (MuonCorrector.add_weight sfSW cmML wEmpty "iso").2 = .ok wMLafter ∧
    ((MuonCorrector.add_weight sfSW cmML wEmpty "iso").1.map (fun c => c.variant) =
      if cmML.variation = "nominal" then ["sf", "systup", "systdown"] else ["sf"]) ∧
    (∃ f, wMLafter.factors = wEmpty.factors ++ [f] ∧
      (f.variants.isSome = true ↔ cmML.variation = "nominal")) := by
  have T := variation_controls_variants sfSW ceW wEmpty "wp90iso" cmW wEmpty "id"
    (Or.inr ⟨rfl, Or.inr rfl⟩) (Or.inl rfl)
  have T2 := variation_controls_variants sfSW ceW wEmpty "wp90iso" cmML wEmpty "iso"
    (Or.inl ⟨rfl, Or.inr (Or.inl rfl)⟩) (Or.inr rfl)
  exact ⟨Or.inr ⟨rfl, Or.inr rfl⟩, Or.inl rfl, rfl, rfl, T.1, T.2.1 wEafter rfl,
    T.2.2.1, T.2.2.2 wMafter rfl,
    Or.inl ⟨rfl, Or.inr (Or.inl rfl)⟩, Or.inr rfl, rfl,
    T2.2.2.1, T2.2.2.2 wMLafter rfl⟩

/-! ### Claim theorems: kinematic pass-through (C6) and trigger / MET-filter masks (C9) -/

/-- **C6**: for a real-data chunk (no generator-weight branch, so `is_mc` is false) the
kinematic-correction step returns the jet collection and the MET branches unchanged:
lines 102-105 take the raw `events.Jet` / `events.MET`, and the MET-phi correction
(modelled from the spec, `corrections/met.py` not being under `src/`) passes real data
through unchanged.  `processCore` feeds exactly this step's output to every downstream
mask and feature. -/
theorem data_kinematics_pass_through (ext : Externals) (c : Chunk)
    (h : c.genWeight = none) :
    kinematicStep ext c = (c.jets, c.met) := by
  simp [kinematicStep, met_phi_corrections, h]

/-- The counterexample chunk with its generator weight removed: a real-data chunk. -/
def chunkData : Chunk := { chunkCx with genWeight := none }

/-- Witness for C6 at a concrete data chunk. -/
theorem data_kinematics_pass_through_witness :
    chunkData.genWeight = none ∧
    kinematicStep extDemo chunkData = (chunkData.jets, chunkData.met) :=
  ⟨rfl, data_kinematics_pass_through extDemo chunkData rfl⟩

/-- Fold a name list against a lookup table, skipping missing names; when every name is
present this equals the fold of the defaulted lookups. -/
lemma foldl_lookup_default {α : Type} (tbl : List (String × List Bool))
    (g : α → List Bool → α) :
    ∀ (l : List String) (acc : α), (∀ t ∈ l, (List.lookup t tbl).isSome) →
      l.foldl (fun acc t =>
          match List.lookup t tbl with
          | some bits => g acc bits
          | none => acc) acc =
        l.foldl (fun acc t => g acc ((List.lookup t tbl).getD [])) acc := by
  intro l
  induction l with
  | nil => intro acc _; rfl
  | cons t l ih =>
      intro acc h
      obtain ⟨bits, hb⟩ := Option.isSome_iff_exists.mp (h t (List.mem_cons_self t l))
      simp only [List.foldl_cons, hb, Option.getD_some]
      exact ih _ (fun x hx => h x (List.mem_cons_of_mem _ hx))

/-- **C9**: when every configured per-channel trigger bit is present among the chunk HLT
fields, the trigger mask of lines 260-265 equals the elementwise OR of all listed trigger
bits; when every configured MET filter bit is present among the chunk Flag fields, the
filter mask of lines 269-277 equals the elementwise AND of all listed filter bits; and
the masks registered under `"trigger_ele"` / `"trigger_mu"` / `"metfilters"` are exactly
these computations, with the filter list selected by the chunk's data/MC kind. -/
theorem trigger_or_and_metfilters_and (nevents : ℕ)
    (hlt flag : List (String × List Bool)) (trigNames filtNames : List String)
    (ext : Externals) (c : Chunk) (gl : List (List Lepton)) (bj : List (List Jet))
    (kv : KinVars)
    (ht : ∀ t ∈ trigNames, (List.lookup t hlt).isSome)
    (hf : ∀ t ∈ filtNames, (List.lookup t flag).isSome) :
    triggerMask nevents hlt trigNames =
      specOrAll nevents (trigNames.map (fun t => (List.lookup t hlt).getD [])) ∧
    metfiltersMask nevents flag filtNames =
      specAndAll nevents (filtNames.map (fun t => (List.lookup t flag).getD [])) ∧
    List.lookup "trigger_ele" (selectionMasks ext c gl bj kv) =
      some (triggerMask c.nevents c.hlt (ext.triggers "ele")) ∧
    List.lookup "trigger_mu" (selectionMasks ext c gl bj kv) =
      some (triggerMask c.nevents c.hlt (ext.triggers "mu")) ∧
    List.lookup "metfilters" (selectionMasks ext c gl bj kv) =
      some (metfiltersMask c.nevents c.flag
        (ext.metfilters (if c.genWeight.isSome then "mc" else "data"))) := by
  refine ⟨?_, ?_, rfl, rfl, rfl⟩
  · unfold triggerMask specOrAll
    rw [List.foldl_map]
    exact foldl_lookup_default hlt _ trigNames _ ht
  · unfold metfiltersMask specAndAll
    rw [List.foldl_map]
    exact foldl_lookup_default flag _ filtNames _ hf

/-- Witness for C9 at a concrete two-event chunk configuration. -/
theorem trigger_or_and_metfilters_and_witness :
    (∀ t ∈ ["A", "B"], (List.lookup t [("A", [true, false]), ("B", [false, false])]).isSome) ∧
    (∀ t ∈ ["F"], (List.lookup t [("F", [true, true])]).isSome) ∧
    (triggerMask 2 [("A", [true, false]), ("B", [false, false])] ["A", "B"] =
      specOrAll 2 (["A", "B"].map
        (fun t => (List.lookup t [("A", [true, false]), ("B", [false, false])]).getD []))) ∧
    (metfiltersMask 2 [("F", [true, true])] ["F"] =
      specAndAll 2 (["F"].map (fun t => (List.lookup t [("F", [true, true])]).getD []))) ∧
    List.lookup "trigger_ele"
        (selectionMasks extDemo chunkCx [] []
          (extDemo.kinVars [] ⟨[], []⟩)) =
      some (triggerMask chunkCx.nevents chunkCx.hlt (extDemo.triggers "ele")) := by
  have T := trigger_or_and_metfilters_and 2 [("A", [true, false]), ("B", [false, false])]
    [("F", [true, true])] ["A", "B"] ["F"] extDemo chunkCx [] []
    (extDemo.kinVars [] ⟨[], []⟩) (by decide) (by decide)
  exact ⟨by decide, by decide, T.1, T.2.1, T.2.2.1⟩

/-! ### Claim theorems: zero-events path (C7) and statelessness across chunks (C8) -/

lemma buildWeights_ok (ext : Externals) (c : Chunk) (hWF : ChunkWF c) :
    ∃ wc, buildWeights ext c = .ok wc := by
  unfold buildWeights
  cases hg : c.genWeight with
  | none => exact ⟨_, rfl⟩
  | some gw =>
      have hlen := hWF gw hg
      have hadd : (⟨c.nevents, []⟩ : Weights).add "genweight" gw none none =
          .ok ⟨c.nevents, [⟨"genweight", gw, none⟩]⟩ := by
        unfold Weights.add
        rw [if_neg (by simp), if_neg (by simp [hlen])]
        rfl
      dsimp only
      rw [hadd]
      exact ⟨_, rfl⟩

/-- The internal region mask of `processCore` is the named `regionSelection`. -/
lemma regionSelection_eq (cfg : Config) (ext : Externals) (c : Chunk)
    (hfl : cfg.lepton_flavor = "ele" ∨ cfg.lepton_flavor = "mu") :
    regionSelection cfg ext c =
      andFoldD
        ⟨c.nevents, selectionMasks ext c (goodLeptons cfg ext c)
          (maskFilter2 (kinematicStep ext c).1
            (ext.good_bjets c (kinematicStep ext c).1 (goodLeptons cfg ext c)))
          (ext.kinVars (goodLeptons cfg ext c) (kinematicStep ext c).2)⟩
        (List.replicate c.nevents true) (regionNames cfg.lepton_flavor) := by
  unfold regionSelection
  dsimp only
  rw [allOf_ok _ _ (region_names_registered ext c _ _ _ cfg.lepton_flavor hfl)]
  rfl

/-- On a chunk whose full-region selection keeps zero events, `processCore` succeeds and
reports `events_before = nevents` and `events_after = 0` with no feature values. -/
lemma processCore_zero (cfg : Config) (ext : Externals) (c : Chunk) (hWF : ChunkWF c)
    (hfl : cfg.lepton_flavor = "ele" ∨ cfg.lepton_flavor = "mu")
    (hzero : (regionSelection cfg ext c).count true = 0) :
    ∃ md, processCore cfg ext c = .ok (md, none) ∧
      md.events_before = c.nevents ∧ md.events_after = 0 := by
  obtain ⟨wc, hwc⟩ := buildWeights_ok ext c hWF
  have hreg := region_names_registered ext c (goodLeptons cfg ext c)
    (maskFilter2 (kinematicStep ext c).1
      (ext.good_bjets c (kinematicStep ext c).1 (goodLeptons cfg ext c)))
    (ext.kinVars (goodLeptons cfg ext c) (kinematicStep ext c).2)
    cfg.lepton_flavor hfl
  obtain ⟨cf, hcf, _, _⟩ := cutflowAux_spec
    ⟨c.nevents, selectionMasks ext c (goodLeptons cfg ext c)
      (maskFilter2 (kinematicStep ext c).1
        (ext.good_bjets c (kinematicStep ext c).1 (goodLeptons cfg ext c)))
      (ext.kinVars (goodLeptons cfg ext c) (kinematicStep ext c).2)⟩
    wc.weight (regionNames cfg.lepton_flavor) [] (by simp) hreg
  have hc0 : (andFoldD
      ⟨c.nevents, selectionMasks ext c (goodLeptons cfg ext c)
        (maskFilter2 (kinematicStep ext c).1
          (ext.good_bjets c (kinematicStep ext c).1 (goodLeptons cfg ext c)))
        (ext.kinVars (goodLeptons cfg ext c) (kinematicStep ext c).2)⟩
      (List.replicate c.nevents true) (regionNames cfg.lepton_flavor)).count true = 0 := by
    rw [← regionSelection_eq cfg ext c hfl]
    exact hzero
  simp only [processCore]
  rw [if_pos hfl, hwc]
  dsimp only
  rw [mkSelections_ok]
  dsimp only
  rw [show cutflowLoop
    ⟨c.nevents, selectionMasks ext c (goodLeptons cfg ext c)
      (maskFilter2 (kinematicStep ext c).1
        (ext.good_bjets c (kinematicStep ext c).1 (goodLeptons cfg ext c)))
      (ext.kinVars (goodLeptons cfg ext c) (kinematicStep ext c).2)⟩
    wc.weight (regionNames cfg.lepton_flavor) = .ok cf from hcf]
  dsimp only
  rw [allOf_ok _ _ hreg]
  dsimp only
  rw [if_pos hc0]
  exact ⟨_, rfl, rfl, hc0⟩

/-- **C7**: for a chunk on which zero events satisfy the full region selection (an empty
0-event chunk included), `process` returns without an error, the returned feature table
is empty, the instance state is unchanged, and the metadata reports the true input event
count with `events_after = 0`.  (`s.array_dict = []` holds for every reachable instance
state: `__init__` sets it empty and no call ever rebinds it.) -/
theorem zero_events_after_selection_ok (cfg : Config) (ext : Externals) (s : ProcState)
    (c : Chunk) (hWF : ChunkWF c)
    (hfl : cfg.lepton_flavor = "ele" ∨ cfg.lepton_flavor = "mu")
    (had : s.array_dict = [])
    (hzero : (regionSelection cfg ext c).count true = 0) :
    ∃ md, process cfg ext s c = (s, .ok ⟨md, []⟩) ∧
      md.events_before = c.nevents ∧ md.events_after = 0 := by
  obtain ⟨md, hcore, hb, ha⟩ := processCore_zero cfg ext c hWF hfl hzero
  refine ⟨md, ?_, hb, ha⟩
  unfold process
  rw [hcore]
  dsimp only
  rw [had]

/-- The empty 0-event input chunk. -/
def chunkEmpty : Chunk :=
  ⟨0, none, [], [], [], [], [], [], [], [], ⟨[], []⟩⟩

/-- Witness for C7 at the empty 0-event data chunk. -/
theorem zero_events_after_selection_ok_witness :
    ChunkWF chunkEmpty ∧
    (cfgEle.lepton_flavor = "ele" ∨ cfgEle.lepton_flavor = "mu") ∧
    initState.array_dict = [] ∧
    (regionSelection cfgEle extDemo chunkEmpty).count true = 0 ∧
    (∃ md, process cfgEle extDemo initState chunkEmpty = (initState, .ok ⟨md, []⟩) ∧
      md.events_before = chunkEmpty.nevents ∧ md.events_after = 0) := by
  have hwf : ChunkWF chunkEmpty := by intro gw hg; cases hg
  exact ⟨hwf, Or.inl rfl, rfl, rfl,
    zero_events_after_selection_ok cfgEle extDemo initState chunkEmpty hwf
      (Or.inl rfl) rfl rfl⟩

/-- The invariant every reachable processor-instance state satisfies: the array
dictionary is never rebound after `__init__`, and the feature dictionary is either still
empty or holds exactly the nine canonical feature names in registration order. -/
def StateWF (s : ProcState) : Prop :=
  s.array_dict = [] ∧ (s.features = [] ∨ s.features.map Prod.fst = featureNames)

lemma addFeatures_keys (v1 v2 v3 v4 v5 v6 v7 v8 v9 : List ℚ) :
    (addFeatures [] v1 v2 v3 v4 v5 v6 v7 v8 v9).map Prod.fst = featureNames := rfl

/-- Re-inserting the nine canonical features into a dictionary that already holds exactly
the canonical names (in order) gives the same result as inserting into the empty
dictionary: Python dict update replaces each value in place. -/
lemma addFeatures_of_keys (d : List (String × List ℚ))
    (hd : d.map Prod.fst = featureNames) (v1 v2 v3 v4 v5 v6 v7 v8 v9 : List ℚ) :
    addFeatures d v1 v2 v3 v4 v5 v6 v7 v8 v9 =
      addFeatures [] v1 v2 v3 v4 v5 v6 v7 v8 v9 := by
  obtain ⟨k1, a1, d, rfl⟩ : ∃ k a d', d = (k, a) :: d' := by
    cases d with
    | nil => simp [featureNames] at hd
    | cons p d => exact ⟨p.1, p.2, d, rfl⟩
  obtain ⟨k2, a2, d, rfl⟩ : ∃ k a d', d = (k, a) :: d' := by
    cases d with
    | nil => simp [featureNames] at hd
    | cons p d => exact ⟨p.1, p.2, d, rfl⟩
  obtain ⟨k3, a3, d, rfl⟩ : ∃ k a d', d = (k, a) :: d' := by
    cases d with
    | nil => simp [featureNames] at hd
    | cons p d => exact ⟨p.1, p.2, d, rfl⟩
  obtain ⟨k4, a4, d, rfl⟩ : ∃ k a d', d = (k, a) :: d' := by
    cases d with
    | nil => simp [featureNames] at hd
    | cons p d => exact ⟨p.1, p.2, d, rfl⟩
  obtain ⟨k5, a5, d, rfl⟩ : ∃ k a d', d = (k, a) :: d' := by
    cases d with
    | nil => simp [featureNames] at hd
    | cons p d => exact ⟨p.1, p.2, d, rfl⟩
  obtain ⟨k6, a6, d, rfl⟩ : ∃ k a d', d = (k, a) :: d' := by
    cases d with
    | nil => simp [featureNames] at hd
    | cons p d => exact ⟨p.1, p.2, d, rfl⟩
  obtain ⟨k7, a7, d, rfl⟩ : ∃ k a d', d = (k, a) :: d' := by
    cases d with
    | nil => simp [featureNames] at hd
    | cons p d => exact ⟨p.1, p.2, d, rfl⟩
  obtain ⟨k8, a8, d, rfl⟩ : ∃ k a d', d = (k, a) :: d' := by
    cases d with
    | nil => simp [featureNames] at hd
    | cons p d => exact ⟨p.1, p.2, d, rfl⟩
  obtain ⟨k9, a9, d, rfl⟩ : ∃ k a d', d = (k, a) :: d' := by
    cases d with
    | nil => simp [featureNames] at hd
    | cons p d => exact ⟨p.1, p.2, d, rfl⟩
  obtain rfl : d = [] := by
    cases d with
    | nil => rfl
    | cons p d => simp [featureNames] at hd
  simp only [featureNames, List.map_cons, List.map_nil, List.cons.injEq,
    and_true] at hd
  obtain ⟨rfl, rfl, rfl, rfl, rfl, rfl, rfl, rfl, rfl⟩ := hd
  rfl

lemma process_state_wf (cfg : Config) (ext : Externals) (s : ProcState) (c : Chunk)
    (hs : StateWF s) : StateWF (process cfg ext s c).1 := by
  unfold process
  cases hc : processCore cfg ext c with
  | error e => exact hs
  | ok p =>
      rcases p with ⟨md, fv⟩
      cases fv with
      | none => exact hs
      | some fv =>
          dsimp only
          refine ⟨hs.1, Or.inr ?_⟩
          rcases hs.2 with h | h
          · rw [h]
            exact addFeatures_keys _ _ _ _ _ _ _ _ _
          · rw [addFeatures_of_keys _ h]
            exact addFeatures_keys _ _ _ _ _ _ _ _ _

lemma process_out_state_independent (cfg : Config) (ext : Externals) (s : ProcState)
    (c : Chunk) (hs : StateWF s) :
    (process cfg ext s c).2 = (process cfg ext initState c).2 := by
  unfold process
  cases hc : processCore cfg ext c with
  | error e => rfl
  | ok p =>
      rcases p with ⟨md, fv⟩
      cases fv with
      | none =>
          dsimp only
          rw [hs.1]
          rfl
      | some fv =>
          dsimp only
          rcases hs.2 with h | h
          · rw [h]
            rfl
          · rw [addFeatures_of_keys _ h]
            rfl

lemma runChunks_wf (cfg : Config) (ext : Externals) (cs : List Chunk) :
    StateWF (runChunks cfg ext initState cs) := by
  have hgen : ∀ (cs : List Chunk) (s : ProcState), StateWF s →
      StateWF (runChunks cfg ext s cs) := by
    intro cs
    induction cs with
    | nil => intro s hs; exact hs
    | cons c cs ih => intro s hs; exact ih _ (process_state_wf cfg ext s c hs)
  exact hgen cs initState ⟨rfl, Or.inl rfl⟩

/-- **C8**: processing a chunk does not depend on any mutable state retained by the
processor instance across invocations: whatever sequences of chunks the same instance
processed beforehand, running `process` on the same chunk returns the identical output
record (feature table, metadata, and error status alike).  The instance dictionaries
`self.features` / `self.array_dict` do persist in the source, but every run either leaves
them untouched or overwrites exactly the nine canonical feature entries, so the output
never observes history. -/
theorem process_independent_of_history (cfg : Config) (ext : Externals)
    (cs1 cs2 : List Chunk) (c : Chunk) :
    (process cfg ext (runChunks cfg ext initState cs1) c).2 =
    (process cfg ext (runChunks cfg ext initState cs2) c).2 := by
  rw [process_out_state_independent cfg ext _ c (runChunks_wf cfg ext cs1),
    process_out_state_independent cfg ext _ c (runChunks_wf cfg ext cs2)]

end BLeptonMet
